import Mathlib

/-!
# Verification of the spfx-form-handler data synchronization engine

Shallow embedding of the engine described in `spec.md`:
* the Type Normalizer (`normalizeFieldType`, src/unnamed/part_000 lines 72-98),
* the Value Mapper (`mapSharePointDataToForm` / `mapFormDataToSharePoint`,
  src/src/components/FormUserPicker.tsx lines 399-531),
* the Dirty Tracker (`handleChange` in src/unnamed/part_004 lines 163-184),
* the save sequence with attachment reconciliation
  (`useFormSubmit`, src/src/core/hooks/useFormSubmit.ts lines 102-182).

JavaScript runtime values are modelled by the inductive `JVal`.  JS numbers
are modelled by exact rationals: the engine only stores and copies numeric
values (it never performs arithmetic on them), so the rational carried by a
literal is an adequate stand-in for the IEEE double.  JS exceptions
(`TypeError` on property access of `null`/`undefined`, a failed remote call)
are modelled by `Except Unit` / explicit failure results.
-/

namespace SpfxForm

/-- Model of a JavaScript runtime value as the engine manipulates it:
`undefined`, `null`, booleans, numbers, strings, arrays, and plain objects
(ordered key/value lists; objects produced by the JS runtime have unique
keys). -/
inductive JVal where
  | undefined : JVal
  | null : JVal
  | bool : Bool → JVal
  | num : Rat → JVal
  | str : String → JVal
  | arr : List JVal → JVal
  | obj : List (String × JVal) → JVal
  deriving Repr

mutual

/-- Structural (SameValueZero-style) equality test on modelled JS values,
used for JS `Set` membership. -/
def JVal.beq : JVal → JVal → Bool
  | .undefined, .undefined => true
  | .null, .null => true
  | .bool a, .bool b => a == b
  | .num a, .num b => a == b
  | .str a, .str b => a == b
  | .arr a, .arr b => JVal.beqList a b
  | .obj a, .obj b => JVal.beqFields a b
  | _, _ => false

/-- Pointwise `JVal.beq` on arrays. -/
def JVal.beqList : List JVal → List JVal → Bool
  | [], [] => true
  | a :: as, b :: bs => JVal.beq a b && JVal.beqList as bs
  | _, _ => false

/-- Pointwise `JVal.beq` on object field lists. -/
def JVal.beqFields : List (String × JVal) → List (String × JVal) → Bool
  | [], [] => true
  | (k1, v1) :: as, (k2, v2) :: bs => k1 == k2 && JVal.beq v1 v2 && JVal.beqFields as bs
  | _, _ => false

end

mutual

theorem JVal.beq_iff : ∀ (a b : JVal), (JVal.beq a b = true) ↔ a = b
  | .undefined, b => by cases b <;> simp [JVal.beq]
  | .null, b => by cases b <;> simp [JVal.beq]
  | .bool x, b => by cases b <;> simp [JVal.beq]
  | .num x, b => by cases b <;> simp [JVal.beq]
  | .str x, b => by cases b <;> simp [JVal.beq]
  | .arr xs, b => by cases b <;> simp [JVal.beq, JVal.beqList_iff xs]
  | .obj xs, b => by cases b <;> simp [JVal.beq, JVal.beqFields_iff xs]

theorem JVal.beqList_iff : ∀ (a b : List JVal), (JVal.beqList a b = true) ↔ a = b
  | [], b => by cases b <;> simp [JVal.beqList]
  | x :: xs, [] => by simp [JVal.beqList]
  | x :: xs, y :: ys => by
      simp [JVal.beqList, JVal.beq_iff x y, JVal.beqList_iff xs ys]

theorem JVal.beqFields_iff : ∀ (a b : List (String × JVal)), (JVal.beqFields a b = true) ↔ a = b
  | [], b => by cases b <;> simp [JVal.beqFields]
  | x :: xs, [] => by simp [JVal.beqFields]
  | (k1, v1) :: xs, (k2, v2) :: ys => by
      simp [JVal.beqFields, JVal.beq_iff v1 v2, JVal.beqFields_iff xs ys]

end

instance : DecidableEq JVal := fun a b => decidable_of_iff _ (JVal.beq_iff a b)

instance : BEq JVal := ⟨JVal.beq⟩

instance : LawfulBEq JVal where
  eq_of_beq h := (JVal.beq_iff _ _).mp h
  rfl := (JVal.beq_iff _ _).mpr rfl

namespace JVal

/-- JS truthiness of a value (`if (v)`).  The model has no `NaN`. -/
def truthy : JVal → Bool
  | .undefined => false
  | .null => false
  | .bool b => b
  | .num n => n ≠ 0
  | .str s => s ≠ ""
  | .arr _ => true
  | .obj _ => true

/-- `typeof v` in JS (note `typeof null = "object"`, and arrays are objects). -/
def typeOf : JVal → String
  | .undefined => "undefined"
  | .null => "object"
  | .bool _ => "boolean"
  | .num _ => "number"
  | .str _ => "string"
  | .arr _ => "object"
  | .obj _ => "object"

/-- `Array.isArray v`. -/
def isArray : JVal → Bool
  | .arr _ => true
  | _ => false

end JVal

/-- First-match lookup in an ordered key/value list (JS objects have unique
keys, so first match is the match). -/
def lookupKey {α : Type} (fields : List (String × α)) (k : String) : Option α :=
  match fields with
  | [] => none
  | (k1, v) :: rest => if k1 = k then some v else lookupKey rest k

/-- Property access `v.k` on a value known not to be `null`/`undefined`
(JS yields `undefined` for a missing property, and for any property of the
non-object primitives in this engine's data domain); it also models the
null-safe access `v?.k`, which yields `undefined` on `null`/`undefined`. -/
def JVal.get (v : JVal) (k : String) : JVal :=
  match v with
  | .obj fields => (lookupKey fields k).getD .undefined
  | _ => .undefined

/-- Property assignment `o[k] = v`: updates the value in place if the key
exists, otherwise appends the key at the end (JS insertion order). -/
def setKey {α : Type} (fields : List (String × α)) (k : String) (v : α) :
    List (String × α) :=
  match fields with
  | [] => [(k, v)]
  | (k1, v1) :: rest =>
    if k1 = k then (k, v) :: rest else (k1, v1) :: setKey rest k v

/-- `delete o[k]`. -/
def removeKey {α : Type} (fields : List (String × α)) (k : String) :
    List (String × α) :=
  fields.filter (fun kv => kv.1 ≠ k)

/-- JS `x || y` on values. -/
def jsOr (a b : JVal) : JVal := if a.truthy then a else b

/-- JS `x || y` on optional strings, where `undefined` and `""` are falsy. -/
def strOr (x y : Option String) : Option String :=
  match x with
  | some s => if s = "" then y else some s
  | none => y

/-- Truthiness of an optional string (`undefined` and `""` are falsy). -/
def truthyStr : Option String → Bool
  | some s => s ≠ ""
  | none => false

/-! ### ASCII string utilities

Lean's own `String.toLower`/`String.splitOn` are defined by well-founded
position recursion and do not reduce inside the kernel, so the few string
operations the engine performs are modelled on `List Char` by structural
recursion.  Lowercasing is modelled for ASCII letters, which is all the
engine's substring tests (`"attachment"`, `"user"`, `"person"`, `"multi"`,
`"odata"`) can match. -/

/-- ASCII lowercasing of one character. -/
def lcChar (c : Char) : Char :=
  if 65 ≤ c.toNat ∧ c.toNat ≤ 90 then Char.ofNat (c.toNat + 32) else c

/-- The character list of `s` lowercased (model of `s.toLowerCase()`). -/
def lowerData (s : String) : List Char := s.data.map lcChar

/-- Whether the first list is a prefix of the second. -/
def isPrefixL : List Char → List Char → Bool
  | [], _ => true
  | _ :: _, [] => false
  | a :: as, b :: bs => a = b && isPrefixL as bs

/-- Whether `t.data` occurs as a contiguous substring of the character list. -/
def hasSubL (t : String) : List Char → Bool
  | [] => isPrefixL t.data []
  | c :: rest => isPrefixL t.data (c :: rest) || hasSubL t rest

/-- `name.toLowerCase().includes('attachment')` — the attachment-field name
heuristic of the save path (FormUserPicker.tsx lines 479-480). -/
def attachNamed (s : String) : Bool := hasSubL "attachment" (lowerData s)

/-- `spFieldName.startsWith('odata.')` (load-path exclusion, line 407). -/
def startsWithOdata (s : String) : Bool := isPrefixL "odata.".data s.data

/-- `spFieldName.includes('@odata')` (load-path exclusion, line 407). -/
def hasAtOdata (s : String) : Bool := hasSubL "@odata" s.data

/-! ## Type Normalizer (`normalizeFieldType`, src/unnamed/part_000 lines 72-98) -/

/-- The raw field-metadata attributes `normalizeFieldType` reads.  A `none`
models an absent (`undefined`) attribute.  `PrincipalType` is only tested
for presence (`!== undefined`), so its numeric value is carried opaquely.
The source spells the second type attribute `Type`; it is rendered `type`
here because `Type` is a Lean keyword. -/
structure RawField where
  TypeAsString : Option String := none
  type : Option String := none
  InternalName : Option String := none
  PrincipalType : Option Int := none
  AllowMultipleValues : Option Bool := none
  LookupListId : Option String := none
  LookupList : Option String := none
  deriving DecidableEq, Repr

/-- `field.TypeAsString || field.Type || ''` (the raw type string). -/
def rawTypeOf (f : RawField) : String :=
  (strOr f.TypeAsString f.type).getD ""

/-- Whether a multiplicity signal is present: the raw type string contains
`"multi"` (case-insensitive) or `AllowMultipleValues === true`. -/
def multiSignal (f : RawField) : Bool :=
  hasSubL "multi" (lowerData (rawTypeOf f)) || f.AllowMultipleValues = some true

/-- `normalizeFieldType` (src/unnamed/part_000 lines 72-98), the Type
Normalizer: attachment rule first, then the principal-type/user/person rule,
then the lookup rule, else the raw type string returned verbatim. -/
def normalizeFieldType (f : RawField) : String :=
  let normalizedType := rawTypeOf f
  if normalizedType = "Attachments" ∨ f.InternalName = some "Attachments" then
    "Attachment"
  else if f.PrincipalType.isSome
      ∨ hasSubL "user" (lowerData normalizedType)
      ∨ hasSubL "person" (lowerData normalizedType) then
    if multiSignal f then "UserMulti" else "User"
  else if truthyStr f.LookupListId ∨ truthyStr f.LookupList then
    if multiSignal f then "LookupMulti" else "Lookup"
  else
    normalizedType

/-- The 15 members of the `NormalizedType` enum named by the spec. -/
def normalizedTypeEnum : List String :=
  ["Text", "Note", "Number", "Currency", "DateTime", "Choice", "MultiChoice",
   "Boolean", "Lookup", "LookupMulti", "User", "UserMulti", "Attachment",
   "Url", "Calculated"]

example : normalizeFieldType { TypeAsString := some "UserMulti" } = "UserMulti" := by decide
example : normalizeFieldType { TypeAsString := some "Banana" } = "Banana" := by decide
example : normalizeFieldType { TypeAsString := some "Lookup", LookupListId := some "L" } = "Lookup" := by decide
example : normalizeFieldType { TypeAsString := some "Lookup", PrincipalType := some 0, LookupListId := some "L" } = "User" := by decide

/-! ## JS `Number(string)` — the numeric-coercion model

The save path coerces ids with
`typeof id === 'string' && !isNaN(Number(id)) ? Number(id) : id`
(FormUserPicker.tsx lines 515-518).  `jsNumberOpt` models `Number` on strings
per the `StringNumericLiteral` grammar: surrounding whitespace is trimmed,
the empty/whitespace-only string is `0`, signed decimal literals with
optional fraction and exponent, and unsigned `0x`/`0o`/`0b` literals are
numbers; everything else is `NaN` (`none`).  Values are exact rationals;
the one non-finite literal `"Infinity"` is collapsed to `0` (no claim
evaluates it), and double rounding is not modelled (the engine never does
arithmetic on the value). -/

/-- ASCII decimal digit test. -/
def isDigitC (c : Char) : Bool := 48 ≤ c.toNat ∧ c.toNat ≤ 57

/-- Value of an ASCII decimal digit. -/
def decDigitVal (c : Char) : Nat := c.toNat - 48

/-- ASCII hexadecimal digit test. -/
def isHexDigitC (c : Char) : Bool :=
  isDigitC c || (97 ≤ (lcChar c).toNat ∧ (lcChar c).toNat ≤ 102)

/-- Value of an ASCII hexadecimal digit. -/
def hexDigitVal (c : Char) : Nat :=
  if isDigitC c then c.toNat - 48 else (lcChar c).toNat - 87

/-- ASCII octal digit test. -/
def isOctDigitC (c : Char) : Bool := 48 ≤ c.toNat ∧ c.toNat ≤ 55

/-- ASCII binary digit test. -/
def isBinDigitC (c : Char) : Bool := c = '0' ∨ c = '1'

/-- Radix accumulation of a digit list. -/
def natOfDigits (base : Nat) (dval : Char → Nat) (l : List Char) : Nat :=
  l.foldl (fun a c => a * base + dval c) 0

/-- JS whitespace (modelled for the ASCII whitespace characters). -/
def isWsC (c : Char) : Bool :=
  c = ' ' ∨ c = '\t' ∨ c = '\n' ∨ c = '\r' ∨ c.toNat = 11 ∨ c.toNat = 12

/-- Strip leading and trailing whitespace. -/
def trimWs (l : List Char) : List Char :=
  ((l.dropWhile isWsC).reverse.dropWhile isWsC).reverse

/-- Exponent digits (`DecimalDigits` after `e`/`E` and an optional sign). -/
def parseExpDigits (l : List Char) : Option Nat :=
  if l ≠ [] ∧ l.all isDigitC then some (natOfDigits 10 decDigitVal l) else none

/-- Signed exponent digits. -/
def parseSignedExp (l : List Char) : Option Int :=
  match l with
  | '+' :: rest => (parseExpDigits rest).map (fun n => (n : Int))
  | '-' :: rest => (parseExpDigits rest).map (fun n => -(n : Int))
  | rest => (parseExpDigits rest).map (fun n => (n : Int))

/-- The optional `ExponentPart`; anything else trailing makes the whole
literal `NaN`. -/
def parseExp : List Char → Option Int
  | [] => some 0
  | 'e' :: rest => parseSignedExp rest
  | 'E' :: rest => parseSignedExp rest
  | _ => none

/-- `StrUnsignedDecimalLiteral`: `Infinity`, or decimal digits with optional
fraction and exponent.  The pure-integer case is produced without rational
arithmetic so that it reduces inside the kernel. -/
def parseUnsignedDec (l : List Char) : Option Rat :=
  if l = "Infinity".data then some 0
  else
    let ip := l.takeWhile isDigitC
    let r1 := l.dropWhile isDigitC
    let fp : List Char :=
      match r1 with
      | '.' :: rest => rest.takeWhile isDigitC
      | _ => []
    let r2 : List Char :=
      match r1 with
      | '.' :: rest => rest.dropWhile isDigitC
      | _ => r1
    if ip = [] ∧ fp = [] then none
    else
      match parseExp r2 with
      | none => none
      | some e =>
        if fp = [] ∧ e = 0 then
          some ((natOfDigits 10 decDigitVal ip : Nat) : Rat)
        else
          some ((((natOfDigits 10 decDigitVal ip : Nat) : Rat)
              + ((natOfDigits 10 decDigitVal fp : Nat) : Rat) / ((10 : Rat) ^ fp.length))
              * (10 : Rat) ^ e)

/-- `StrNumericLiteral`: a signed decimal literal or an unsigned non-decimal
(`0x`/`0o`/`0b`) integer literal. -/
def parseNumericBody (l : List Char) : Option Rat :=
  if isPrefixL ['0', 'x'] l ∨ isPrefixL ['0', 'X'] l then
    if l.drop 2 ≠ [] ∧ (l.drop 2).all isHexDigitC then
      some ((natOfDigits 16 hexDigitVal (l.drop 2) : Nat) : Rat)
    else none
  else if isPrefixL ['0', 'o'] l ∨ isPrefixL ['0', 'O'] l then
    if l.drop 2 ≠ [] ∧ (l.drop 2).all isOctDigitC then
      some ((natOfDigits 8 decDigitVal (l.drop 2) : Nat) : Rat)
    else none
  else if isPrefixL ['0', 'b'] l ∨ isPrefixL ['0', 'B'] l then
    if l.drop 2 ≠ [] ∧ (l.drop 2).all isBinDigitC then
      some ((natOfDigits 2 decDigitVal (l.drop 2) : Nat) : Rat)
    else none
  else if isPrefixL ['+'] l then parseUnsignedDec (l.drop 1)
  else if isPrefixL ['-'] l then (parseUnsignedDec (l.drop 1)).map Neg.neg
  else parseUnsignedDec l

/-- `Number(s)` for a string `s`; `none` models `NaN`. -/
def jsNumberOpt (s : String) : Option Rat :=
  let t := trimWs s.data
  if t = [] then some 0 else parseNumericBody t

/-- The id coercion of the save path (FormUserPicker.tsx lines 515-518):
`typeof id === 'string' && !isNaN(Number(id)) ? Number(id) : id`. -/
def coerceId (v : JVal) : JVal :=
  match v with
  | .str s =>
    match jsNumberOpt s with
    | some q => .num q
    | none => .str s
  | _ => v

example : coerceId (.str "3") = .num 3 := by decide
example : coerceId (.str "abc") = .str "abc" := by decide
example : coerceId (.str "") = .num 0 := by decide
example : coerceId (.num 5) = .num 5 := by decide

/-! ## Value Mapper — load path
(`mapSharePointDataToForm`, FormUserPicker.tsx lines 399-456) -/

/-- JS `Array.prototype.map` with a callback that may throw: the first
thrown exception propagates and no partial result is observed. -/
def mapExcept (g : JVal → Except Unit JVal) : List JVal → Except Unit (List JVal)
  | [] => .ok []
  | x :: xs =>
    match g x with
    | .error e => .error e
    | .ok y =>
      match mapExcept g xs with
      | .error e => .error e
      | .ok ys => .ok (y :: ys)

/-- The per-element mapping of the load path's array branch (lines 440-446):
`item.Name` truthy keeps `{Id, Title, Name}`, otherwise `{Id, Title}`.
A `null`/`undefined` element makes the JS property access throw. -/
def refElem (item : JVal) : Except Unit JVal :=
  match item with
  | .null => .error ()
  | .undefined => .error ()
  | _ =>
    if (item.get "Name").truthy then
      .ok (.obj [("Id", item.get "Id"), ("Title", item.get "Title"), ("Name", item.get "Name")])
    else
      .ok (.obj [("Id", item.get "Id"), ("Title", item.get "Title")])

/-- The per-value transformation of the load path (lines 414-451), branch
for branch.  In the array branch JS evaluates `value[0].Id` after
`typeof value[0] === 'object'`, so an array headed by `null` throws. -/
def mapSPValue (v : JVal) : Except Unit JVal :=
  if v = .null ∨ v = .undefined then .ok .null
  else if v.typeOf = "object" ∧ v.isArray = false
      ∧ v.get "Id" ≠ .undefined ∧ v.get "Name" ≠ .undefined then
    .ok (.obj [("Id", v.get "Id"), ("Title", v.get "Title"), ("Name", v.get "Name")])
  else if v.typeOf = "object" ∧ v.isArray = false
      ∧ v.get "Id" ≠ .undefined ∧ v.get "Title" ≠ .undefined ∧ (v.get "Name").truthy = false then
    .ok (.obj [("Id", v.get "Id"), ("Title", v.get "Title")])
  else
    match v with
    | .arr (h :: t) =>
      if h = .null then .error ()
      else if h.typeOf = "object" ∧ h.get "Id" ≠ .undefined then
        (mapExcept refElem (h :: t)).map .arr
      else .ok v
    | _ => .ok v

/-- `fieldMapping[spFieldName] || spFieldName` — the destination form name
of the load path (line 411). -/
def formNameOf (fieldMapping : List (String × String)) (spName : String) : String :=
  (strOr (lookupKey fieldMapping spName) (some spName)).getD spName

/-- The `forEach` of `mapSharePointDataToForm` (lines 406-453): skip
already-processed and metadata-envelope keys, translate the destination key
through `fieldMapping[spFieldName] || spFieldName`, map the value, and
assign it into the accumulated form state. -/
def loadFields (fieldMapping : List (String × String)) :
    List (String × JVal) → List String → List (String × JVal) →
    Except Unit (List (String × JVal))
  | [], _, acc => .ok acc
  | (spName, v) :: rest, processed, acc =>
    if processed.contains spName ∨ startsWithOdata spName ∨ hasAtOdata spName then
      loadFields fieldMapping rest processed acc
    else
      match mapSPValue v with
      | .error e => .error e
      | .ok w => loadFields fieldMapping rest (spName :: processed)
          (setKey acc (formNameOf fieldMapping spName) w)

/-- `mapSharePointDataToForm` (FormUserPicker.tsx lines 399-456).  The
remote record is an ordered key/value list (JS object keys are unique and
iterate in insertion order). -/
def mapSharePointDataToForm (spData : List (String × JVal))
    (fieldMapping : List (String × String)) : Except Unit (List (String × JVal)) :=
  loadFields fieldMapping spData [] []

/-! ## Value Mapper — save path
(`mapFormDataToSharePoint`, FormUserPicker.tsx lines 458-531) -/

/-- A baseline attachment as the save path reads it: the code consults the
remote-listing fields `FileName` and `Name` and the descriptor fields `id`
and `name`; `none` models an absent attribute. -/
structure SPAttachment where
  FileName : Option String := none
  Name : Option String := none
  id : Option String := none
  name : Option String := none
  deriving DecidableEq, Repr

/-- `att.FileName || att.Name || att.id || ''` — the baseline name used by
the attachment diff (line 491). -/
def baselineName (att : SPAttachment) : String :=
  (strOr (strOr att.FileName att.Name) att.id).getD ""

/-- Iteration order of a JS `Set` built from a list: first occurrences in
insertion order. -/
def dedupFirstAux : List String → List String → List String
  | [], _ => []
  | x :: xs, seen =>
    if seen.contains x then dedupFirstAux xs seen
    else x :: dedupFirstAux xs (x :: seen)

/-- First-occurrence deduplication (JS `Set` iteration order). -/
def dedupFirst (l : List String) : List String := dedupFirstAux l []

/-- `item?.id || item?.name` for a current attachment entry. -/
def currentEntryName (it : JVal) : JVal := jsOr (it.get "id") (it.get "name")

/-- The set of current attachment names (lines 483-487): entries whose
`id || name` is truthy, mapped to that value. -/
def currentNames (items : List JVal) : List JVal :=
  (items.filter (fun it => (currentEntryName it).truthy)).map currentEntryName

instance {ε α : Type} [DecidableEq ε] [DecidableEq α] : DecidableEq (Except ε α) :=
  fun a b =>
    match a, b with
    | .ok x, .ok y => if h : x = y then .isTrue (by rw [h]) else .isFalse (by simp [h])
    | .error x, .error y => if h : x = y then .isTrue (by rw [h]) else .isFalse (by simp [h])
    | .ok _, .error _ => .isFalse (by simp)
    | .error _, .ok _ => .isFalse (by simp)

/-- Result triple of `mapFormDataToSharePoint`. -/
structure SaveResult where
  spData : List (String × JVal)
  filesToUpload : List (String × JVal)
  filesToDelete : List (String × String)
  deriving DecidableEq, Repr

/-- `attachment?.file && !attachment?.id` — a not-yet-persisted entry. -/
def isPendingUpload (it : JVal) : Bool :=
  (it.get "file").truthy && !(it.get "id").truthy

/-- `reverseMapping[formFieldName] || formFieldName` — the destination
remote name of the save path (line 476). -/
def spNameOf (reverseMapping : List (String × String)) (formFieldName : String) : String :=
  (strOr (lookupKey reverseMapping formFieldName) (some formFieldName)).getD formFieldName

/-- One iteration of the save path's `forEach` (lines 475-528), branch for
branch.  In the multi-lookup branch JS evaluates `item.Id` on every array
element, so a `null`/`undefined` element throws. -/
def processField (reverseMapping : List (String × String))
    (formData : List (String × JVal)) (originalAttachments : Option (List SPAttachment))
    (acc : SaveResult) (formFieldName : String) : Except Unit SaveResult :=
  let spFieldName := spNameOf reverseMapping formFieldName
  let fieldValue := (lookupKey formData formFieldName).getD .undefined
  let isAttachmentField := attachNamed formFieldName || attachNamed spFieldName
  match fieldValue with
  | .arr items =>
    if isAttachmentField then
      let current := currentNames items
      let originalFileNames := dedupFirst ((originalAttachments.getD []).map baselineName)
      let uploads := (items.filter isPendingUpload).map (fun it => (formFieldName, it))
      let deletes := (originalFileNames.filter
          (fun n => n ≠ "" && !(current.contains (.str n)))).map (fun n => (formFieldName, n))
      .ok { acc with
            filesToUpload := acc.filesToUpload ++ uploads,
            filesToDelete := acc.filesToDelete ++ deletes }
    else if items.length > 0 then
      if items.any isPendingUpload then
        .ok { acc with
              filesToUpload := acc.filesToUpload ++
                (items.filter isPendingUpload).map (fun it => (formFieldName, it)) }
      else if (items.headD .undefined).truthy ∧ (items.headD .undefined).typeOf = "object"
          ∧ (items.headD .undefined).get "Id" ≠ .undefined then
        match mapExcept (fun it =>
            match it with
            | .null => .error ()
            | .undefined => .error ()
            | _ => .ok (coerceId (it.get "Id"))) items with
        | .error e => .error e
        | .ok ids =>
          let entry : JVal := .obj [("results", .arr ids)]
          .ok { acc with spData := setKey acc.spData (spFieldName ++ "Id") entry }
      else
        .ok { acc with spData := setKey acc.spData spFieldName fieldValue }
    else if fieldValue.typeOf = "object" ∧ fieldValue ≠ .null ∧ fieldValue.get "Id" ≠ .undefined then
      .ok { acc with spData := setKey acc.spData (spFieldName ++ "Id") (fieldValue.get "Id") }
    else if !isAttachmentField then
      .ok { acc with spData := setKey acc.spData spFieldName fieldValue }
    else
      .ok acc
  | _ =>
    if fieldValue.typeOf = "object" ∧ fieldValue ≠ .null ∧ fieldValue.get "Id" ≠ .undefined then
      .ok { acc with spData := setKey acc.spData (spFieldName ++ "Id") (fieldValue.get "Id") }
    else if !isAttachmentField then
      .ok { acc with spData := setKey acc.spData spFieldName fieldValue }
    else
      .ok acc

/-- `reverseMapping` construction (lines 464-467). -/
def buildReverse (fieldMapping : List (String × String)) : List (String × String) :=
  fieldMapping.foldl (fun acc p => setKey acc p.2 p.1) []

/-- `mapFormDataToSharePoint` (FormUserPicker.tsx lines 458-531).
`dirtyFields = none` models the `undefined` argument; a present-but-empty
list falls back to all form fields (line 473). -/
def mapFormDataToSharePoint (formData : List (String × JVal))
    (fieldMapping : List (String × String))
    (originalAttachments : Option (List SPAttachment))
    (dirtyFields : Option (List String)) : Except Unit SaveResult :=
  let reverseMapping := buildReverse fieldMapping
  let fieldsToProcess :=
    match dirtyFields with
    | some d => if d.length > 0 then d else formData.map Prod.fst
    | none => formData.map Prod.fst
  fieldsToProcess.foldlM (processField reverseMapping formData originalAttachments)
    { spData := [], filesToUpload := [], filesToDelete := [] }

example :
    mapFormDataToSharePoint [("Title", .str "hello"), ("Other", .num 5)] [] none (some ["Title"])
      = .ok { spData := [("Title", .str "hello")], filesToUpload := [], filesToDelete := [] } := by
  decide

example :
    mapFormDataToSharePoint
      [("attachments", .arr [.obj [("id", .str "a.pdf")],
                             .obj [("file", .obj [("s", .num 1)]), ("name", .str "c.pdf")]])]
      [] (some [{ id := some "a.pdf" }, { id := some "b.pdf" }]) none
      = .ok { spData := [],
              filesToUpload := [("attachments", .obj [("file", .obj [("s", .num 1)]), ("name", .str "c.pdf")])],
              filesToDelete := [("attachments", "b.pdf")] } := by
  decide

example :
    mapFormDataToSharePoint [("Lookups", .arr [.obj [("Id", .str "3")], .obj [("Id", .str "7")]])]
      [] none none
      = .ok { spData := [("LookupsId", .obj [("results", .arr [.num 3, .num 7])])],
              filesToUpload := [], filesToDelete := [] } := by
  decide

/-! ## Dirty Tracker (`handleChange`, src/unnamed/part_004 lines 163-184) -/

mutual

/-- Modelled from the spec: `deepEqual` — the source imports it from
`src/utils/dirtyFields`, a file not present under `src/`.  Spec §4.4: deep
structural equality, order-sensitive for arrays, key-set and value equality
for objects. -/
def deepEqual (a b : JVal) : Bool :=
  match a, b with
  | .arr xs, .arr ys => deepEqualList xs ys
  | .obj xs, .obj ys => deepSubset xs ys && deepSubset ys xs
  | x, y => JVal.beq x y
termination_by sizeOf a + sizeOf b

/-- Pointwise, order-sensitive deep equality on arrays. -/
def deepEqualList (a b : List JVal) : Bool :=
  match a, b with
  | [], [] => true
  | x :: xs, y :: ys => deepEqual x y && deepEqualList xs ys
  | _, _ => false
termination_by sizeOf a + sizeOf b

/-- Every binding of the first object deep-matches a binding of the second. -/
def deepSubset (a b : List (String × JVal)) : Bool :=
  match a with
  | [] => true
  | (k, v) :: rest => deepLookup k v b && deepSubset rest b
termination_by sizeOf a + sizeOf b

/-- Whether `b` binds `k` to a value deep-equal to `v`. -/
def deepLookup (k : String) (v : JVal) (b : List (String × JVal)) : Bool :=
  match b with
  | [] => false
  | (k2, v2) :: rest => if k2 = k then deepEqual v v2 else deepLookup k v rest
termination_by sizeOf v + sizeOf b

end

/-- One form edit session's state, as held by `FormProvider`
(src/unnamed/part_004): current values, touched flags, the dirty-field map
(a JS object whose keys carry `true`), and the baseline snapshot
`initialValuesRef.current`. -/
structure FormSession where
  values : List (String × JVal)
  touched : List (String × Bool)
  dirtyFields : List (String × Bool)
  initialValues : List (String × JVal)
  deriving Repr

/-- `handleChange` (part_004 lines 163-184): sets the value and the touched
flag, then recomputes the dirty entry for `name`: the field is marked dirty
exactly when `!deepEqual(value, initialValuesRef.current[name])`, and its
entry is deleted otherwise.  The external validation call
(`validateField`/`setError`) carries no state modelled here (spec §1 places
validation-rule evaluation outside the engine). -/
def handleChange (s : FormSession) (name : String) (value : JVal) : FormSession :=
  let initialValue := (lookupKey s.initialValues name).getD .undefined
  let isDirty := !deepEqual value initialValue
  { s with
    values := setKey s.values name value,
    touched := setKey s.touched name true,
    dirtyFields :=
      if isDirty then setKey s.dirtyFields name true
      else removeKey s.dirtyFields name }

/-- `Object.keys(dirtyFields).filter(key => dirtyFields[key])`
(useFormSubmit.ts line 112). -/
def dirtyFieldNames (dirty : List (String × Bool)) : List String :=
  (dirty.filter (fun p => p.2)).map (fun p => p.1)

/-! ## Save sequence (`useFormSubmit.ts` lines 102-182) -/

/-- An attachment operation issued by the reconciliation loops. -/
inductive AttachOp where
  | del : String → AttachOp
  | up : JVal → AttachOp
  deriving DecidableEq, Repr

/-- Behaviour of the external transport for one save: whether the primary
save succeeds, the id returned by `addItem`, whether the optional
`deleteFile` method exists, and which individual attachment operations
fail. -/
structure ApiBehavior where
  updateOk : Bool := true
  addOk : Bool := true
  addResultId : Int := 0
  hasDeleteFile : Bool := true
  deleteFails : String → Bool := fun _ => false
  uploadFails : JVal → Bool := fun _ => false

/-- The delete loop (useFormSubmit.ts lines 144-156): strictly sequential;
each call is wrapped in try/catch, so a failure is recorded and the loop
continues; when `apiService.deleteFile` is absent no call is made; the
fixed pacing delay has no data effect. -/
def runDeleteLoop (api : ApiBehavior) : List String → List (AttachOp × Bool)
  | [] => []
  | n :: rest =>
    if api.hasDeleteFile then (.del n, !api.deleteFails n) :: runDeleteLoop api rest
    else runDeleteLoop api rest

/-- The upload loop (lines 158-174), with the same per-item failure
isolation. -/
def runUploadLoop (api : ApiBehavior) : List (String × JVal) → List (AttachOp × Bool)
  | [] => []
  | p :: rest => (.up p.2, !api.uploadFails p.2) :: runUploadLoop api rest

/-- Observable outcome of one successful save sequence: the id the
attachment loops run against, the payload handed to the primary save, and
the attachment calls that were made with their per-item success. -/
structure SubmitOutcome where
  savedItemId : Int
  payload : List (String × JVal)
  attachmentLog : List (AttachOp × Bool)
  deriving DecidableEq, Repr

/-- The autoSave branch of `handleSubmit` (useFormSubmit.ts lines 111-181):
map the form data — scoping to the dirty field names exactly when updating
an existing record (`itemId && itemId > 0`) — run the primary save (whose
failure throws, aborting before any attachment work), then, for a positive
saved id, run the delete loop followed by the upload loop.  Validation
gating, callbacks, setState calls and pacing delays have no effect on the
data modelled here and are omitted. -/
def handleSubmitSave (api : ApiBehavior) (itemId : Option Int)
    (values : List (String × JVal)) (fieldMapping : List (String × String))
    (originalAttachments : Option (List SPAttachment))
    (dirtyFields : List (String × Bool)) : Except Unit SubmitOutcome :=
  let isUpdate := match itemId with | some i => decide (0 < i) | none => false
  match mapFormDataToSharePoint values fieldMapping originalAttachments
      (if isUpdate then some (dirtyFieldNames dirtyFields) else none) with
  | .error e => .error e
  | .ok r =>
    match (if isUpdate then (if api.updateOk then some (itemId.getD 0) else none)
           else if api.addOk then
             some (if api.addResultId ≠ 0 then api.addResultId
                   else match itemId with | some i => i | none => 0)
           else none) with
    | none => .error ()
    | some savedItemId =>
      let log :=
        if 0 < savedItemId then
          runDeleteLoop api (r.filesToDelete.map (fun p => p.2))
            ++ runUploadLoop api r.filesToUpload
        else []
      .ok { savedItemId := savedItemId, payload := r.spData, attachmentLog := log }

/-! ## Claims C6 and C7 — Type Normalizer -/

/-- Claim C6, counterexample: a metadata record carrying a principal-type
signal, a lookup-list identifier, *and* the raw type string `"Attachments"`
classifies as `Attachment` — not `User`/`UserMulti` as the claim demands
for every record carrying both signals. -/
theorem normalizeFieldType_attachment_overrides_user :
    normalizeFieldType { TypeAsString := some "Attachments", PrincipalType := some 1,
                         LookupListId := some "g" } = "Attachment"
    ∧ ("Attachment" : String) ≠ "User" ∧ ("Attachment" : String) ≠ "UserMulti" := by
  decide

/-- Claim C6 (amended): for every raw metadata record carrying both a
principal-type signal and a lookup-list identifier, *and not matching the
higher-priority attachment rule* (raw type string `"Attachments"` or
internal name `"Attachments"`), `classify` returns `User` or `UserMulti` —
`UserMulti` exactly when a multiplicity signal (multi-value flag or type
string containing `"multi"`) is present — and never `Lookup`/`LookupMulti`. -/
theorem normalizeFieldType_user_beats_lookup (f : RawField)
    (hprincipal : f.PrincipalType.isSome = true)
    (_hlookup : truthyStr f.LookupListId = true ∨ truthyStr f.LookupList = true)
    (hatt1 : rawTypeOf f ≠ "Attachments")
    (hatt2 : f.InternalName ≠ some "Attachments") :
    normalizeFieldType f = (if multiSignal f then "UserMulti" else "User")
    ∧ normalizeFieldType f ≠ "Lookup" ∧ normalizeFieldType f ≠ "LookupMulti" := by
  have h1 : ¬(rawTypeOf f = "Attachments" ∨ f.InternalName = some "Attachments") :=
    not_or.mpr ⟨hatt1, hatt2⟩
  simp only [normalizeFieldType]
  rw [if_neg h1, if_pos (Or.inl hprincipal)]
  cases hm : multiSignal f <;> simp

/-- Witness for the amended claim C6 at a concrete record carrying both a
principal-type signal and a lookup-list identifier. -/
theorem normalizeFieldType_user_beats_lookup_witness :
    normalizeFieldType { TypeAsString := some "Text", PrincipalType := some 1,
                         LookupListId := some "g" }
      = (if multiSignal { TypeAsString := some "Text", PrincipalType := some 1,
                          LookupListId := some "g" } then "UserMulti" else "User")
    ∧ normalizeFieldType { TypeAsString := some "Text", PrincipalType := some 1,
                           LookupListId := some "g" } ≠ "Lookup"
    ∧ normalizeFieldType { TypeAsString := some "Text", PrincipalType := some 1,
                           LookupListId := some "g" } ≠ "LookupMulti" :=
  normalizeFieldType_user_beats_lookup _ (by decide) (Or.inl (by decide))
    (by decide) (by decide)

/-- Claim C7, counterexample: an unrecognized raw type string is returned
verbatim — `"Banana"` is not one of the enum values and is not rewritten to
the claimed fallback `"Text"`. -/
theorem normalizeFieldType_passthrough_not_text :
    normalizeFieldType { TypeAsString := some "Banana" } = "Banana"
    ∧ "Banana" ∉ normalizedTypeEnum
    ∧ ("Banana" : String) ≠ "Text" := by
  decide

/-- Claim C7 (amended): `classify` is total and deterministic (it is a pure
function into `String`, so it cannot throw or return `null`), and for every
input it returns one of its five synthesised classifications or the raw
type string verbatim (the empty string when no type attribute is present);
the `Text` fallback for unrecognized strings is left to downstream
consumers. -/
theorem normalizeFieldType_total (f : RawField) :
    normalizeFieldType f = "Attachment" ∨ normalizeFieldType f = "User"
    ∨ normalizeFieldType f = "UserMulti" ∨ normalizeFieldType f = "Lookup"
    ∨ normalizeFieldType f = "LookupMulti" ∨ normalizeFieldType f = rawTypeOf f := by
  simp only [normalizeFieldType]
  split_ifs <;> tauto

/-! ## Claim C5 — Dirty Tracker -/

theorem mem_dirtyFieldNames {d : List (String × Bool)} {x : String} :
    x ∈ dirtyFieldNames d ↔ (x, true) ∈ d := by
  simp only [dirtyFieldNames, List.mem_map, List.mem_filter]
  constructor
  · rintro ⟨⟨a, b⟩, ⟨hm, hb⟩, rfl⟩
    simp only at hb
    cases b
    · simp at hb
    · exact hm
  · intro hm
    exact ⟨(x, true), ⟨hm, rfl⟩, rfl⟩

theorem self_mem_setKey_true (d : List (String × Bool)) (k : String) :
    (k, true) ∈ setKey d k true := by
  induction d with
  | nil => simp [setKey]
  | cons p rest ih =>
    obtain ⟨k1, b⟩ := p
    by_cases hk : k1 = k <;> simp [setKey, hk, ih]

theorem mem_setKey_of_ne {α : Type} {d : List (String × α)} {k x : String} {v w : α}
    (hx : x ≠ k) : ((x, v) ∈ setKey d k w ↔ (x, v) ∈ d) := by
  induction d with
  | nil => simp [setKey, Prod.ext_iff, hx]
  | cons p rest ih =>
    obtain ⟨k1, b⟩ := p
    by_cases hk : k1 = k
    · subst hk
      simp [setKey, Prod.ext_iff, hx]
    · simp [setKey, hk, ih]

theorem mem_removeKey {α : Type} {d : List (String × α)} {k x : String} {v : α} :
    (x, v) ∈ removeKey d k ↔ ((x, v) ∈ d ∧ x ≠ k) := by
  simp [removeKey, List.mem_filter]

/-- Claim C5: a value change marks the field dirty exactly when the new
value deep-differs from the baseline value for that field, and unmarks it
when the value reverts to deep-equal the baseline; all other fields'
dirty membership is untouched. -/
theorem handleChange_dirty_iff (s : FormSession) (name : String) (v : JVal) :
    ((name ∈ dirtyFieldNames (handleChange s name v).dirtyFields)
       ↔ deepEqual v ((lookupKey s.initialValues name).getD .undefined) = false)
    ∧ ∀ m : String, m ≠ name →
        ((m ∈ dirtyFieldNames (handleChange s name v).dirtyFields)
           ↔ m ∈ dirtyFieldNames s.dirtyFields) := by
  simp only [handleChange]
  cases hd : deepEqual v ((lookupKey s.initialValues name).getD .undefined)
  · simp only [hd, Bool.not_false, if_pos]
    refine ⟨?_, ?_⟩
    · simp only [mem_dirtyFieldNames]
      exact iff_of_true (self_mem_setKey_true _ _) trivial
    · intro m hm
      simp [mem_dirtyFieldNames, mem_setKey_of_ne hm]
  · simp only [hd, Bool.not_true, Bool.false_eq_true, if_false]
    refine ⟨?_, ?_⟩
    · simp [mem_dirtyFieldNames, mem_removeKey]
    · intro m hm
      simp [mem_dirtyFieldNames, mem_removeKey, hm]

/-- Witness for claim C5, the spec's concrete scenario: baseline
`{A: 1, B: "x"}`; after `handleChange(A, 2)` the dirty set is `{A}`; after
a subsequent `handleChange(A, 1)` the dirty set is `{}`. -/
theorem handleChange_dirty_iff_witness :
    ("A" ∈ dirtyFieldNames (handleChange
        { values := [("A", .num 1), ("B", .str "x")], touched := [], dirtyFields := [],
          initialValues := [("A", .num 1), ("B", .str "x")] } "A" (.num 2)).dirtyFields)
    ∧ dirtyFieldNames (handleChange
        { values := [("A", .num 1), ("B", .str "x")], touched := [], dirtyFields := [],
          initialValues := [("A", .num 1), ("B", .str "x")] } "A" (.num 2)).dirtyFields = ["A"]
    ∧ dirtyFieldNames (handleChange (handleChange
        { values := [("A", .num 1), ("B", .str "x")], touched := [], dirtyFields := [],
          initialValues := [("A", .num 1), ("B", .str "x")] } "A" (.num 2)) "A" (.num 1)).dirtyFields = [] := by
  refine ⟨(handleChange_dirty_iff _ "A" (.num 2)).1.mpr ?_, ?_, ?_⟩
  · simp [lookupKey, deepEqual, JVal.beq]
  · simp [handleChange, lookupKey, deepEqual, JVal.beq, setKey, dirtyFieldNames]
  · simp [handleChange, lookupKey, deepEqual, JVal.beq, setKey, removeKey, dirtyFieldNames]

/-! ## Claim C2 — attachment reconciliation planning -/

/-- The baseline-name rule exactly as the claim words it, for comparison
with the source's `baselineName`: prefer `id`, fall back to `name`. -/
def claimBaselineName (att : SPAttachment) : String :=
  (strOr att.id att.name).getD ""

/-- Claim C2, counterexample: a baseline entry carrying only the
descriptor field `name` has claim-name `"x.pdf"`, which is absent from an
empty current list, so the claim requires `toDelete = ["x.pdf"]`; the code
reads `FileName || Name || id` (never the lowercase `name`), resolves the
entry to the empty string, skips it, and deletes nothing. -/
theorem attachment_delete_ignores_descriptor_name :
    claimBaselineName { name := some "x.pdf" } = "x.pdf"
    ∧ mapFormDataToSharePoint [("attachments", .arr [])] []
        (some [{ name := some "x.pdf" }]) none
      = .ok { spData := [], filesToUpload := [], filesToDelete := [] } := by
  decide

/-- Claim C2 (amended): for an attachment-named array field, `toUpload` is
exactly the current entries with a truthy pending-file handle and falsy
`id` (regardless of baseline membership), and `toDelete` is exactly the
baseline names — computed as `FileName || Name || id`, first occurrences
only, empty names skipped — absent from the set of truthy `id || name`
values of the current entries. -/
theorem mapFormData_attachment_plan (f : String) (items : List JVal)
    (orig : List SPAttachment) (m : List (String × String))
    (hatt : attachNamed f = true) :
    mapFormDataToSharePoint [(f, .arr items)] m (some orig) none
      = .ok { spData := [],
              filesToUpload := (items.filter isPendingUpload).map (fun it => (f, it)),
              filesToDelete := ((dedupFirst (orig.map baselineName)).filter
                  (fun n => n ≠ "" && !((currentNames items).contains (.str n)))).map
                  (fun n => (f, n)) } := by
  simp [mapFormDataToSharePoint, List.foldlM, processField, lookupKey, hatt]

/-- Witness for the amended claim C2: the spec's diff scenario — baseline
`[{id:"a.pdf"}, {id:"b.pdf"}]`, current `[{id:"a.pdf"}, {file, name:"c.pdf"}]`
gives `toDelete = ["b.pdf"]` and `toUpload` = the pending `"c.pdf"` entry. -/
theorem mapFormData_attachment_plan_witness :
    mapFormDataToSharePoint
      [("attachments", .arr [.obj [("id", .str "a.pdf")],
                             .obj [("file", .obj []), ("name", .str "c.pdf")]])]
      [] (some [{ id := some "a.pdf" }, { id := some "b.pdf" }]) none
      = .ok { spData := [],
              filesToUpload := [("attachments", .obj [("file", .obj []), ("name", .str "c.pdf")])],
              filesToDelete := [("attachments", "b.pdf")] } :=
  (mapFormData_attachment_plan "attachments"
      [.obj [("id", .str "a.pdf")], .obj [("file", .obj []), ("name", .str "c.pdf")]]
      [{ id := some "a.pdf" }, { id := some "b.pdf" }] [] (by decide)).trans
    (by decide)

/-! ## Claim C4 — attachment partial-failure isolation -/

theorem runDeleteLoop_eq_map (api : ApiBehavior) (h : api.hasDeleteFile = true) :
    ∀ l : List String, runDeleteLoop api l = l.map (fun n => (AttachOp.del n, !api.deleteFails n))
  | [] => rfl
  | n :: rest => by simp [runDeleteLoop, h, runDeleteLoop_eq_map api h rest]

theorem runUploadLoop_eq_map (api : ApiBehavior) :
    ∀ l : List (String × JVal),
      runUploadLoop api l = l.map (fun p => (AttachOp.up p.2, !api.uploadFails p.2))
  | [] => rfl
  | p :: rest => by simp [runUploadLoop, runUploadLoop_eq_map api rest]

/-- Claim C4: once the primary update of an existing record has succeeded,
every planned delete is attempted and then every planned upload is
attempted; each operation's recorded outcome depends only on that
operation's own failure, so one failing delete neither prevents the
remaining operations nor touches the already-saved payload. -/
theorem handleSubmitSave_attachment_isolation (api : ApiBehavior) (i : Int)
    (values : List (String × JVal)) (m : List (String × String))
    (orig : Option (List SPAttachment)) (dirty : List (String × Bool)) (r : SaveResult)
    (hpos : 0 < i) (hupd : api.updateOk = true) (hdel : api.hasDeleteFile = true)
    (hmap : mapFormDataToSharePoint values m orig (some (dirtyFieldNames dirty)) = .ok r) :
    handleSubmitSave api (some i) values m orig dirty
      = .ok { savedItemId := i, payload := r.spData,
              attachmentLog :=
                r.filesToDelete.map (fun p => (AttachOp.del p.2, !api.deleteFails p.2))
                ++ r.filesToUpload.map (fun p => (AttachOp.up p.2, !api.uploadFails p.2)) } := by
  have hdec : decide (0 < i) = true := decide_eq_true hpos
  simp only [handleSubmitSave, hdec, if_pos, hmap, hupd, Option.getD]
  simp [hpos, runDeleteLoop_eq_map api hdel, runUploadLoop_eq_map api, List.map_map]

/-- Witness for claim C4: with a transport that fails exactly the delete of
`"b.pdf"`, the save of item 1 still attempts (and succeeds at) the upload
of the pending `"c.pdf"` entry, and the saved payload is untouched. -/
theorem handleSubmitSave_attachment_isolation_witness :
    handleSubmitSave
      { deleteFails := fun n => n == "b.pdf" } (some 1)
      [("attachments", .arr [.obj [("id", .str "a.pdf")],
                             .obj [("file", .obj []), ("name", .str "c.pdf")]])]
      [] (some [{ id := some "a.pdf" }, { id := some "b.pdf" }]) []
      = .ok { savedItemId := 1, payload := [],
              attachmentLog := [(.del "b.pdf", false),
                                (.up (.obj [("file", .obj []), ("name", .str "c.pdf")]), true)] } :=
  (handleSubmitSave_attachment_isolation
      { deleteFails := fun n => n == "b.pdf" } 1
      [("attachments", .arr [.obj [("id", .str "a.pdf")],
                             .obj [("file", .obj []), ("name", .str "c.pdf")]])]
      [] (some [{ id := some "a.pdf" }, { id := some "b.pdf" }]) []
      { spData := [],
        filesToUpload := [("attachments", .obj [("file", .obj []), ("name", .str "c.pdf")])],
        filesToDelete := [("attachments", "b.pdf")] }
      (by decide) rfl rfl (by decide)).trans (by decide)

/-! ## Claim C8 — numeric id coercion -/

theorem digit_toNat {c : Char} (h : isDigitC c = true) :
    48 ≤ c.toNat ∧ c.toNat ≤ 57 := by
  simpa [isDigitC] using h

theorem isWsC_eq_false_of_digit {c : Char} (h : isDigitC c = true) : isWsC c = false := by
  simp only [isWsC, decide_eq_false_iff_not]
  rintro (rfl | rfl | rfl | rfl | h2 | h2)
  · exact absurd h (by decide)
  · exact absurd h (by decide)
  · exact absurd h (by decide)
  · exact absurd h (by decide)
  · have := digit_toNat h; omega
  · have := digit_toNat h; omega

theorem dropWhile_eq_self_of_none {p : Char → Bool} {l : List Char}
    (h : ∀ c ∈ l, p c = false) : l.dropWhile p = l := by
  cases l with
  | nil => rfl
  | cons c rest => simp [List.dropWhile, h c (List.mem_cons_self c rest)]

theorem trimWs_eq_self_of_digits {l : List Char} (h : l.all isDigitC = true) :
    trimWs l = l := by
  have hd : ∀ c ∈ l, isWsC c = false := fun c hc =>
    isWsC_eq_false_of_digit (List.all_eq_true.mp h c hc)
  have h1 : l.dropWhile isWsC = l := dropWhile_eq_self_of_none hd
  have h2 : l.reverse.dropWhile isWsC = l.reverse :=
    dropWhile_eq_self_of_none (fun c hc => hd c (List.mem_reverse.mp hc))
  simp [trimWs, h1, h2]

theorem takeWhile_all_eq {p : Char → Bool} :
    ∀ {l : List Char}, l.all p = true → (l.takeWhile p = l ∧ l.dropWhile p = [])
  | [], _ => ⟨rfl, rfl⟩
  | c :: rest, h => by
    rw [List.all_cons, Bool.and_eq_true] at h
    have hr := takeWhile_all_eq h.2
    simp [List.takeWhile, List.dropWhile, h.1, hr.1, hr.2]

theorem digit_ne {c d : Char} (h : isDigitC c = true) (hd : isDigitC d = false) :
    ¬(d = c) := by
  intro e
  rw [e] at hd
  rw [hd] at h
  cases h

/-- `Number(s)` of a nonempty all-digits string is the denoted natural. -/
theorem jsNumber_digits (s : String) (hne : s.data ≠ [])
    (hall : s.data.all isDigitC = true) :
    jsNumberOpt s = some ((natOfDigits 10 decDigitVal s.data : Nat) : Rat) := by
  have htrim : trimWs s.data = s.data := trimWs_eq_self_of_digits hall
  obtain ⟨c, rest, hcr⟩ : ∃ c rest, s.data = c :: rest := by
    cases hsd : s.data with
    | nil => exact absurd hsd hne
    | cons c rest => exact ⟨c, rest, rfl⟩
  have hcd : isDigitC c = true := by
    have := List.all_eq_true.mp hall
    exact this c (hcr ▸ List.mem_cons_self c rest)
  have hpre : ∀ d : Char, isDigitC d = false → isPrefixL [d] (s.data) = false := by
    intro d hd
    rw [hcr]
    simp [isPrefixL, digit_ne hcd hd]
  have hpre2 : ∀ d e : Char, isDigitC e = false →
      isPrefixL [d, e] (s.data) = false := by
    intro d e he
    rw [hcr]
    cases rest with
    | nil => simp [isPrefixL]
    | cons c2 r2 =>
      have hc2 : isDigitC c2 = true := by
        have := List.all_eq_true.mp hall
        exact this c2 (hcr ▸ List.mem_cons_of_mem c (List.mem_cons_self c2 r2))
      simp [isPrefixL, digit_ne hc2 he]
  have hInf : s.data ≠ "Infinity".data := by
    rw [hcr]
    intro he
    have : c = 'I' := by
      have := congrArg (fun l => l.headD ' ') he
      simpa using this
    rw [this] at hcd
    exact absurd hcd (by decide)
  have htw := takeWhile_all_eq hall
  simp only [jsNumberOpt, htrim, if_neg hne, parseNumericBody,
    hpre2 '0' 'x' (by decide), hpre2 '0' 'X' (by decide),
    hpre2 '0' 'o' (by decide), hpre2 '0' 'O' (by decide),
    hpre2 '0' 'b' (by decide), hpre2 '0' 'B' (by decide),
    hpre '+' (by decide), hpre '-' (by decide),
    Bool.false_eq_true, or_self, if_false, if_neg hInf, parseUnsignedDec]
  rw [htw.1, htw.2]
  simp only [parseExp]
  rw [if_neg (fun hh => hne hh.1)]
  simp

/-- Claim C8: in the save path's id coercion, a digit-only string id is
emitted as a number carrying the digits' value; an id whose `Number(...)`
is `NaN` passes through unchanged; and for a multi-lookup field the array
`[{Id:"3"},{Id:"7"}]` emits `{"results":[3,7]}` as numbers. -/
theorem coerceId_digits_and_nan :
    (∀ s : String, s.data ≠ [] → s.data.all isDigitC = true →
        coerceId (.str s) = .num ((natOfDigits 10 decDigitVal s.data : Nat) : Rat))
    ∧ (∀ s : String, jsNumberOpt s = none → coerceId (.str s) = .str s)
    ∧ mapFormDataToSharePoint
        [("Lookups", .arr [.obj [("Id", .str "3")], .obj [("Id", .str "7")]])] [] none none
      = .ok { spData := [("LookupsId", .obj [("results", .arr [.num 3, .num 7])])],
              filesToUpload := [], filesToDelete := [] } := by
  refine ⟨?_, ?_, by decide⟩
  · intro s h1 h2
    simp [coerceId, jsNumber_digits s h1 h2]
  · intro s h
    simp [coerceId, h]

/-- Witness for claim C8 at `"42"` (digit string) and `"pdf"` (NaN). -/
theorem coerceId_digits_and_nan_witness :
    coerceId (.str "42") = .num 42 ∧ coerceId (.str "pdf") = .str "pdf" :=
  ⟨(coerceId_digits_and_nan.1 "42" (by decide) (by decide)).trans (by decide),
   coerceId_digits_and_nan.2.1 "pdf" (by decide)⟩

/-! ## Claims C3 and C10 — partial update scoping and the empty-dirty fallback -/

theorem mem_keys_setKey {α : Type} {l : List (String × α)} {k x : String} {v : α} :
    x ∈ (setKey l k v).map Prod.fst ↔ (x = k ∨ x ∈ l.map Prod.fst) := by
  induction l with
  | nil => simp [setKey]
  | cons p rest ih =>
    obtain ⟨k1, w⟩ := p
    by_cases hk : k1 = k
    · subst hk
      simp [setKey]
      try tauto
    · simp [setKey, hk, ih]
      try tauto

theorem except_ok_bind {ε α β : Type} (a : α) (k : α → Except ε β) :
    ((Except.ok a : Except ε α) >>= k) = k a := rfl

theorem except_error_bind {ε α β : Type} (e : ε) (k : α → Except ε β) :
    ((Except.error e : Except ε α) >>= k) = .error e := rfl

/-- Case analysis of one successful `processField` step: the payload either
stays unchanged — and then the field was attachment-named or its value an
array containing pending uploads — or gains exactly one binding under
`spName` or `spName ++ "Id"`. -/
theorem processField_ok_shape (rev : List (String × String))
    (formData : List (String × JVal)) (orig : Option (List SPAttachment))
    (acc : SaveResult) (f : String) (acc1 : SaveResult)
    (h : processField rev formData orig acc f = .ok acc1) :
    (acc1.spData = acc.spData
       ∧ ((attachNamed f || attachNamed (spNameOf rev f)) = true
           ∨ ∃ items, (lookupKey formData f).getD .undefined = .arr items
               ∧ items.any isPendingUpload = true))
    ∨ (∃ v, acc1.spData = setKey acc.spData (spNameOf rev f) v)
    ∨ (∃ v, acc1.spData = setKey acc.spData (spNameOf rev f ++ "Id") v) := by
  simp only [processField] at h
  rcases hv : (lookupKey formData f).getD .undefined with _ | _ | b | q | s | items | fields <;>
    simp only [hv] at h
  case arr =>
    by_cases hatt : (attachNamed f || attachNamed (spNameOf rev f)) = true
    · rw [if_pos hatt] at h
      injection h with h1
      exact Or.inl ⟨by rw [← h1], Or.inl hatt⟩
    · rw [if_neg hatt] at h
      by_cases hlen : items.length > 0
      · rw [if_pos hlen] at h
        by_cases hpend : items.any isPendingUpload = true
        · rw [if_pos hpend] at h
          injection h with h1
          exact Or.inl ⟨by rw [← h1], Or.inr ⟨items, rfl, hpend⟩⟩
        · rw [if_neg hpend] at h
          by_cases hhead : (items.headD .undefined).truthy = true
              ∧ (items.headD .undefined).typeOf = "object"
              ∧ (items.headD .undefined).get "Id" ≠ .undefined
          · rw [if_pos hhead] at h
            rcases hmx : mapExcept (fun it =>
                match it with
                | .null => Except.error ()
                | .undefined => Except.error ()
                | _ => Except.ok (coerceId (it.get "Id"))) items with e | ids <;>
              rw [hmx] at h
            · cases h
            · injection h with h1
              exact Or.inr (Or.inr ⟨.obj [("results", .arr ids)], by rw [← h1]⟩)
          · rw [if_neg hhead] at h
            injection h with h1
            exact Or.inr (Or.inl ⟨.arr items, by rw [← h1]⟩)
      · rw [if_neg hlen] at h
        have hobj : ¬((JVal.arr items).typeOf = "object" ∧ (JVal.arr items) ≠ .null
            ∧ (JVal.arr items).get "Id" ≠ .undefined) := by
          rintro ⟨-, -, hid⟩
          exact hid rfl
        rw [if_neg hobj] at h
        rw [if_pos (by simp [Bool.not_eq_true] at hatt ⊢; simp [hatt])] at h
        injection h with h1
        exact Or.inr (Or.inl ⟨.arr items, by rw [← h1]⟩)
  all_goals {
    by_cases hobj : (((lookupKey formData f).getD JVal.undefined).typeOf = "object"
        ∧ ((lookupKey formData f).getD JVal.undefined) ≠ .null
        ∧ ((lookupKey formData f).getD JVal.undefined).get "Id" ≠ .undefined)
    · rw [hv] at hobj
      rw [if_pos hobj] at h
      injection h with h1
      exact Or.inr (Or.inr ⟨_, by rw [← h1]⟩)
    · rw [hv] at hobj
      rw [if_neg hobj] at h
      by_cases hatt : (attachNamed f || attachNamed (spNameOf rev f)) = true
      · rw [hatt] at h
        simp only [Bool.not_true, Bool.false_eq_true, if_false] at h
        injection h with h1
        exact Or.inl ⟨by rw [← h1], Or.inl hatt⟩
      · rw [Bool.not_eq_true] at hatt
        rw [hatt] at h
        simp only [Bool.not_false, if_true] at h
        injection h with h1
        exact Or.inr (Or.inl ⟨_, by rw [← h1]⟩) }

/-- Keys already present in the payload survive one `processField` step. -/
theorem processField_keys_mono {rev formData orig acc f acc1}
    (h : processField rev formData orig acc f = .ok acc1) :
    ∀ x ∈ acc.spData.map Prod.fst, x ∈ acc1.spData.map Prod.fst := by
  intro x hx
  rcases processField_ok_shape rev formData orig acc f acc1 h with ⟨he, -⟩ | ⟨v, he⟩ | ⟨v, he⟩ <;>
    rw [he]
  · exact hx
  · exact mem_keys_setKey.mpr (Or.inr hx)
  · exact mem_keys_setKey.mpr (Or.inr hx)

/-- Keys added by one `processField` step derive from the processed field. -/
theorem processField_keys_prov {rev formData orig acc f acc1}
    (h : processField rev formData orig acc f = .ok acc1) :
    ∀ x ∈ acc1.spData.map Prod.fst,
      x ∈ acc.spData.map Prod.fst ∨ x = spNameOf rev f ∨ x = spNameOf rev f ++ "Id" := by
  intro x hx
  rcases processField_ok_shape rev formData orig acc f acc1 h with ⟨he, -⟩ | ⟨v, he⟩ | ⟨v, he⟩ <;>
    rw [he] at hx
  · exact Or.inl hx
  · rcases mem_keys_setKey.mp hx with h1 | h1
    · exact Or.inr (Or.inl h1)
    · exact Or.inl h1
  · rcases mem_keys_setKey.mp hx with h1 | h1
    · exact Or.inr (Or.inr h1)
    · exact Or.inl h1

/-- A field that is neither attachment-named nor an array holding pending
uploads certainly leaves its key (as `spName` or `spName ++ "Id"`) in the
payload after its `processField` step. -/
theorem processField_keys_emit {rev formData orig acc f acc1}
    (h : processField rev formData orig acc f = .ok acc1)
    (hatt : (attachNamed f || attachNamed (spNameOf rev f)) = false)
    (hnp : ∀ items, (lookupKey formData f).getD .undefined = .arr items →
        items.any isPendingUpload = false) :
    spNameOf rev f ∈ acc1.spData.map Prod.fst
    ∨ spNameOf rev f ++ "Id" ∈ acc1.spData.map Prod.fst := by
  rcases processField_ok_shape rev formData orig acc f acc1 h with
    ⟨-, hs | ⟨items, hi, hp⟩⟩ | ⟨v, he⟩ | ⟨v, he⟩
  · rw [hatt] at hs; cases hs
  · rw [hnp items hi] at hp; cases hp
  · exact Or.inl (by rw [he]; exact mem_keys_setKey.mpr (Or.inl rfl))
  · exact Or.inr (by rw [he]; exact mem_keys_setKey.mpr (Or.inl rfl))

theorem foldl_processField_mono (rev : List (String × String))
    (formData : List (String × JVal)) (orig : Option (List SPAttachment)) :
    ∀ (fields : List String) (acc res : SaveResult),
      List.foldlM (processField rev formData orig) acc fields = .ok res →
      ∀ x ∈ acc.spData.map Prod.fst, x ∈ res.spData.map Prod.fst
  | [], acc, res, h, x, hx => by
    injection h with h1
    rw [← h1]
    exact hx
  | f :: rest, acc, res, h, x, hx => by
    rw [List.foldlM] at h
    rcases hpf : processField rev formData orig acc f with e | acc1 <;> rw [hpf] at h
    · rw [except_error_bind] at h; cases h
    · rw [except_ok_bind] at h
      exact foldl_processField_mono rev formData orig rest acc1 res h x
        (processField_keys_mono hpf x hx)

theorem foldl_processField_prov (rev : List (String × String))
    (formData : List (String × JVal)) (orig : Option (List SPAttachment)) :
    ∀ (fields : List String) (acc res : SaveResult),
      List.foldlM (processField rev formData orig) acc fields = .ok res →
      ∀ x ∈ res.spData.map Prod.fst,
        x ∈ acc.spData.map Prod.fst
        ∨ ∃ f ∈ fields, x = spNameOf rev f ∨ x = spNameOf rev f ++ "Id"
  | [], acc, res, h, x, hx => by
    injection h with h1
    rw [← h1] at hx
    exact Or.inl hx
  | f :: rest, acc, res, h, x, hx => by
    rw [List.foldlM] at h
    rcases hpf : processField rev formData orig acc f with e | acc1 <;> rw [hpf] at h
    · rw [except_error_bind] at h; cases h
    · rw [except_ok_bind] at h
      rcases foldl_processField_prov rev formData orig rest acc1 res h x hx with h1 | ⟨g, hg, hgx⟩
      · rcases processField_keys_prov hpf x h1 with h2 | h2
        · exact Or.inl h2
        · exact Or.inr ⟨f, List.mem_cons_self f rest, h2⟩
      · exact Or.inr ⟨g, List.mem_cons_of_mem f hg, hgx⟩

theorem foldl_processField_split (rev : List (String × String))
    (formData : List (String × JVal)) (orig : Option (List SPAttachment)) :
    ∀ (l1 l2 : List String) (acc res : SaveResult),
      List.foldlM (processField rev formData orig) acc (l1 ++ l2) = .ok res →
      ∃ mid, List.foldlM (processField rev formData orig) acc l1 = .ok mid
        ∧ List.foldlM (processField rev formData orig) mid l2 = .ok res
  | [], l2, acc, res, h => ⟨acc, rfl, h⟩
  | f :: rest, l2, acc, res, h => by
    rw [List.cons_append, List.foldlM] at h
    rcases hpf : processField rev formData orig acc f with e | acc1 <;> rw [hpf] at h
    · rw [except_error_bind] at h; cases h
    · rw [except_ok_bind] at h
      obtain ⟨mid, h1, h2⟩ := foldl_processField_split rev formData orig rest l2 acc1 res h
      refine ⟨mid, ?_, h2⟩
      rw [List.foldlM, hpf, except_ok_bind]
      exact h1

/-- Claim C3, counterexample: an update of an existing record (`itemId = 1`)
saved while the dirty set is empty emits a payload built from *all* form
fields — here the field `Other`, which is not in the (empty) dirty set —
contradicting "iterates only the fields in the dirty set" as a universal
statement. -/
theorem update_with_empty_dirty_emits_all :
    handleSubmitSave {} (some 1) [("Other", .num 5)] [] none []
      = .ok { savedItemId := 1, payload := [("Other", .num 5)], attachmentLog := [] }
    ∧ dirtyFieldNames [] = [] := by
  decide

/-- Claim C3 (amended): for an update of an existing record saved with a
*nonempty* dirty set, the save path iterates only the dirty field names:
every key of the emitted payload derives, as `spName` or `spName ++ "Id"`,
from some field of the dirty set. -/
theorem mapFormData_dirty_scoped (values : List (String × JVal))
    (m : List (String × String)) (orig : Option (List SPAttachment))
    (d : List String) (res : SaveResult)
    (hne : d ≠ [])
    (h : mapFormDataToSharePoint values m orig (some d) = .ok res) :
    ∀ x ∈ res.spData.map Prod.fst, ∃ f ∈ d,
      x = spNameOf (buildReverse m) f ∨ x = spNameOf (buildReverse m) f ++ "Id" := by
  intro x hx
  rw [mapFormDataToSharePoint] at h
  rw [if_pos (List.length_pos.mpr hne)] at h
  rcases foldl_processField_prov (buildReverse m) values orig d _ res h x hx with h1 | h1
  · simp at h1
  · exact h1

/-- Witness for the amended claim C3: the spec's scenario — dirty set
`{Title}`, full form state `{Title, Other}` — emits exactly the `Title`
binding, and its key derives from the dirty set. -/
theorem mapFormData_dirty_scoped_witness :
    mapFormDataToSharePoint [("Title", .str "hello"), ("Other", .num 5)] [] none (some ["Title"])
      = .ok { spData := [("Title", .str "hello")], filesToUpload := [], filesToDelete := [] }
    ∧ ∃ f ∈ ["Title"], "Title" = spNameOf (buildReverse []) f
        ∨ "Title" = spNameOf (buildReverse []) f ++ "Id" :=
  ⟨by decide,
   mapFormData_dirty_scoped [("Title", .str "hello"), ("Other", .num 5)] [] none ["Title"]
     { spData := [("Title", .str "hello")], filesToUpload := [], filesToDelete := [] }
     (by decide) (by decide) "Title" (by decide)⟩

/-- Claim C10, counterexample: an update with an empty dirty set does fall
back to iterating all form fields, but an attachment-named field
contributes no payload entry, so the payload can still be empty — here the
lone field `Attachments` yields an empty payload, contradicting "the
emitted payload contains an entry derived from every field". -/
theorem empty_dirty_attachment_field_emits_nothing :
    handleSubmitSave {} (some 1) [("Attachments", .arr [])] [] none []
      = .ok { savedItemId := 1, payload := [], attachmentLog := [] } := by
  decide

/-- Claim C10 (amended): a save with a present-but-empty dirty list behaves
exactly like a save with no dirty restriction (it falls back to iterating
all form fields), and every form field that is not attachment-named and
whose value is not an array holding pending uploads contributes a payload
entry under its `spName` or `spName ++ "Id"`. -/
theorem mapFormData_empty_dirty_fallback (values : List (String × JVal))
    (m : List (String × String)) (orig : Option (List SPAttachment)) :
    mapFormDataToSharePoint values m orig (some [])
      = mapFormDataToSharePoint values m orig none
    ∧ (∀ (res : SaveResult) (f : String),
        mapFormDataToSharePoint values m orig (some []) = .ok res →
        f ∈ values.map Prod.fst →
        (attachNamed f || attachNamed (spNameOf (buildReverse m) f)) = false →
        (∀ items, (lookupKey values f).getD .undefined = .arr items →
            items.any isPendingUpload = false) →
        spNameOf (buildReverse m) f ∈ res.spData.map Prod.fst
        ∨ spNameOf (buildReverse m) f ++ "Id" ∈ res.spData.map Prod.fst) := by
  constructor
  · rfl
  · intro res f h hf hatt hnp
    rw [mapFormDataToSharePoint] at h
    simp only [List.length_nil, gt_iff_lt, lt_self_iff_false, if_false] at h
    obtain ⟨pre, post, hsplit⟩ := List.append_of_mem hf
    rw [hsplit] at h
    obtain ⟨mid, h1, h2⟩ := foldl_processField_split (buildReverse m) values orig pre _ _ res h
    rw [List.foldlM] at h2
    rcases hpf : processField (buildReverse m) values orig mid f with e | acc1 <;> rw [hpf] at h2
    · rw [except_error_bind] at h2; cases h2
    · rw [except_ok_bind] at h2
      rcases processField_keys_emit hpf hatt hnp with hk | hk
      · exact Or.inl (foldl_processField_mono (buildReverse m) values orig post acc1 res h2 _ hk)
      · exact Or.inr (foldl_processField_mono (buildReverse m) values orig post acc1 res h2 _ hk)

/-- Witness for the amended claim C10: with an empty dirty list the lone
scalar field `Title` is iterated and contributes its payload entry. -/
theorem mapFormData_empty_dirty_fallback_witness :
    mapFormDataToSharePoint [("Title", .str "hi")] [] none (some [])
      = mapFormDataToSharePoint [("Title", .str "hi")] [] none none
    ∧ (spNameOf (buildReverse []) "Title"
        ∈ ({ spData := [("Title", .str "hi")], filesToUpload := [], filesToDelete := [] }
            : SaveResult).spData.map Prod.fst
      ∨ spNameOf (buildReverse []) "Title" ++ "Id"
        ∈ ({ spData := [("Title", .str "hi")], filesToUpload := [], filesToDelete := [] }
            : SaveResult).spData.map Prod.fst) :=
  ⟨(mapFormData_empty_dirty_fallback [("Title", .str "hi")] [] none).1,
   (mapFormData_empty_dirty_fallback [("Title", .str "hi")] [] none).2
     { spData := [("Title", .str "hi")], filesToUpload := [], filesToDelete := [] }
     "Title" (by decide) (by decide) (by decide)
     (by intro items hi; cases hi)⟩

/-! ## Claim C1 — round trip for scalar and single-reference records -/

/-- Scalars of the remote record model: `null`, booleans, numbers, strings. -/
def isScalar : JVal → Bool
  | .null => true
  | .bool _ => true
  | .num _ => true
  | .str _ => true
  | _ => false

/-- A single-reference value: a plain object whose `Id` member is present. -/
def isSingleRef : JVal → Bool
  | .obj fields => (JVal.obj fields).get "Id" != .undefined
  | _ => false

/-- Extract the value of a successful mapping (`undefined` on failure). -/
def okValue : Except Unit JVal → JVal
  | .ok w => w
  | .error _ => .undefined

theorem lookupKey_eq_none {α : Type} {l : List (String × α)} {k : String} :
    lookupKey l k = none ↔ k ∉ l.map Prod.fst := by
  induction l with
  | nil => simp [lookupKey]
  | cons p rest ih =>
    obtain ⟨k1, v⟩ := p
    simp only [lookupKey, List.map_cons, List.mem_cons]
    by_cases hk : k1 = k
    · subst hk
      simp
    · simp [hk, ih, Ne.symm hk]

theorem lookupKey_mem {α : Type} {l : List (String × α)} {k : String} {v : α}
    (h : lookupKey l k = some v) : (k, v) ∈ l := by
  induction l with
  | nil => cases h
  | cons p rest ih =>
    obtain ⟨k1, w⟩ := p
    by_cases hk : k1 = k
    · subst hk
      rw [lookupKey, if_pos rfl] at h
      injection h with h1
      rw [← h1]
      exact List.mem_cons_self _ _
    · rw [lookupKey, if_neg hk] at h
      exact List.mem_cons_of_mem _ (ih h)

theorem setKey_eq_append {α : Type} {l : List (String × α)} {k : String} {v : α}
    (h : k ∉ l.map Prod.fst) : setKey l k v = l ++ [(k, v)] := by
  induction l with
  | nil => rfl
  | cons p rest ih =>
    obtain ⟨k1, w⟩ := p
    simp only [List.map_cons, List.mem_cons, not_or] at h
    rw [setKey, if_neg (fun e => h.1 e.symm), ih h.2]
    rfl

theorem mapSPValue_scalar {v : JVal} (h : isScalar v = true) : mapSPValue v = .ok v := by
  cases v <;> simp [isScalar] at h <;>
    simp [mapSPValue, JVal.typeOf, JVal.isArray, JVal.get]

theorem mapSPValue_ref {fields : List (String × JVal)}
    (h : (JVal.obj fields).get "Id" ≠ .undefined) :
    ∃ w, mapSPValue (.obj fields) = .ok w
      ∧ isSingleRef w = true
      ∧ w.get "Id" = (JVal.obj fields).get "Id" := by
  have h2 : (lookupKey fields "Id").getD JVal.undefined ≠ JVal.undefined := h
  by_cases hname : (JVal.obj fields).get "Name" ≠ .undefined
  · refine ⟨.obj [("Id", (JVal.obj fields).get "Id"), ("Title", (JVal.obj fields).get "Title"),
        ("Name", (JVal.obj fields).get "Name")], ?_, ?_, ?_⟩
    · simp [mapSPValue, JVal.typeOf, JVal.isArray, h, hname]
    · simp [isSingleRef, JVal.get, lookupKey, h2]
    · simp [JVal.get, lookupKey]
  · rw [not_not] at hname
    by_cases htitle : (JVal.obj fields).get "Title" ≠ .undefined
    · refine ⟨.obj [("Id", (JVal.obj fields).get "Id"), ("Title", (JVal.obj fields).get "Title")],
        ?_, ?_, ?_⟩
      · simp [mapSPValue, JVal.typeOf, JVal.isArray, h, hname, htitle, JVal.truthy]
      · simp [isSingleRef, JVal.get, lookupKey, h2]
      · simp [JVal.get, lookupKey]
    · rw [not_not] at htitle
      refine ⟨.obj fields, ?_, ?_, rfl⟩
      · simp [mapSPValue, JVal.typeOf, JVal.isArray, h, hname, htitle]
      · simp [isSingleRef, h]

/-- The loaded value of a scalar or single-reference field: scalars survive
unchanged; references stay reference-shaped with the same `Id`. -/
theorem loaded_emit {v : JVal} (hv : isScalar v = true ∨ isSingleRef v = true) :
    isSingleRef (okValue (mapSPValue v)) = isSingleRef v
    ∧ (isSingleRef v = true → (okValue (mapSPValue v)).get "Id" = v.get "Id")
    ∧ (isScalar v = true → okValue (mapSPValue v) = v)
    ∧ (isScalar (okValue (mapSPValue v)) = true ∨ isSingleRef (okValue (mapSPValue v)) = true) := by
  rcases hv with hs | hr
  · rw [mapSPValue_scalar hs]
    exact ⟨rfl, fun h => rfl, fun _ => rfl, Or.inl hs⟩
  · rcases v with _ | _ | b | q | s | items | fields <;> simp [isSingleRef] at hr
    have hid : (JVal.obj fields).get "Id" ≠ .undefined := by
      simpa [bne_iff_ne] using hr
    obtain ⟨w, hw, hw1, hw2⟩ := mapSPValue_ref hid
    rw [hw]
    simp only [okValue]
    refine ⟨?_, fun _ => hw2, ?_, Or.inr hw1⟩
    · rw [hw1]
      simp [isSingleRef, bne_iff_ne, hid]
    · intro hsc
      simp [isScalar] at hsc

theorem loadFields_eq (m : List (String × String)) :
    ∀ (r : List (String × JVal)) (processed : List String) (acc : List (String × JVal)),
      (∀ kv ∈ r, startsWithOdata kv.1 = false ∧ hasAtOdata kv.1 = false
          ∧ kv.1 ∉ processed ∧ ∃ w, mapSPValue kv.2 = .ok w) →
      (r.map Prod.fst).Nodup →
      (r.map (fun kv => formNameOf m kv.1)).Nodup →
      (∀ kv ∈ r, formNameOf m kv.1 ∉ acc.map Prod.fst) →
      loadFields m r processed acc
        = .ok (acc ++ r.map (fun kv => (formNameOf m kv.1, okValue (mapSPValue kv.2))))
  | [], processed, acc, _, _, _, _ => by simp [loadFields]
  | (k, v) :: rest, processed, acc, h1, h2, h3, h4 => by
    have hh := h1 (k, v) (List.mem_cons_self _ _)
    have ho1 : startsWithOdata k = false := hh.1
    have ho2 : hasAtOdata k = false := hh.2.1
    have hp : k ∉ processed := hh.2.2.1
    obtain ⟨w, hw0⟩ := hh.2.2.2
    have hw : mapSPValue v = .ok w := hw0
    have hc : processed.contains k = false := by simp [hp]
    have hfr : formNameOf m k ∉ acc.map Prod.fst := h4 (k, v) (List.mem_cons_self _ _)
    rw [loadFields, if_neg (by simp [hc, ho1, ho2, hp])]
    simp only [hw]
    rw [show setKey acc (formNameOf m k) w = acc ++ [(formNameOf m k, w)] from
        setKey_eq_append hfr]
    rw [List.map_cons, List.nodup_cons] at h2 h3
    rw [loadFields_eq m rest (k :: processed) (acc ++ [(formNameOf m k, w)]) ?ha ?hb ?hc2 ?hd]
    · simp [hw, okValue, List.append_assoc]
    case ha =>
      intro kv hkv
      obtain ⟨a1, a2, a3, a4⟩ := h1 kv (List.mem_cons_of_mem _ hkv)
      refine ⟨a1, a2, ?_, a4⟩
      intro hin
      rcases List.mem_cons.mp hin with he | he
      · have hm : kv.1 ∈ rest.map Prod.fst := List.mem_map_of_mem Prod.fst hkv
        rw [he] at hm
        exact h2.1 hm
      · exact a3 he
    case hb => exact h2.2
    case hc2 => exact h3.2
    case hd =>
      intro kv hkv
      rw [List.map_append]
      intro hin
      rcases List.mem_append.mp hin with he | he
      · exact h4 kv (List.mem_cons_of_mem _ hkv) he
      · simp only [List.map_cons, List.map_nil, List.mem_singleton] at he
        have hm : formNameOf m kv.1 ∈ rest.map (fun kv => formNameOf m kv.1) :=
          List.mem_map_of_mem (fun kv => formNameOf m kv.1) hkv
        rw [he] at hm
        exact h3.1 hm

theorem lookup_map_self {α β : Type} (F : α → String) (W : α → β) :
    ∀ (l : List α) (a : α), a ∈ l → (l.map F).Nodup →
      lookupKey (l.map (fun x => (F x, W x))) (F a) = some (W a)
  | [], a, ha, _ => absurd ha (List.not_mem_nil a)
  | x :: rest, a, ha, hnd => by
    rw [List.map_cons, List.nodup_cons] at hnd
    rw [List.map_cons, lookupKey]
    by_cases hfx : F x = F a
    · rw [if_pos hfx]
      rcases List.mem_cons.mp ha with rfl | har
      · rfl
      · exact absurd (hfx ▸ List.mem_map_of_mem F har) hnd.1
    · rw [if_neg hfx]
      rcases List.mem_cons.mp ha with rfl | har
      · exact absurd rfl hfx
      · exact lookup_map_self F W rest a har hnd.2

theorem keys_buildReverse_aux :
    ∀ (m : List (String × String)) (acc : List (String × String)) (x : String),
      x ∈ (m.foldl (fun acc p => setKey acc p.2 p.1) acc).map Prod.fst
        ↔ (x ∈ acc.map Prod.fst ∨ x ∈ m.map Prod.snd)
  | [], acc, x => by simp
  | p :: m, acc, x => by
    rw [List.foldl_cons, keys_buildReverse_aux m _ x, mem_keys_setKey]
    simp
    tauto

theorem buildReverse_aux_eq :
    ∀ (m : List (String × String)) (acc : List (String × String)),
      (m.map Prod.snd).Nodup →
      (∀ p ∈ m, p.2 ∉ acc.map Prod.fst) →
      m.foldl (fun acc p => setKey acc p.2 p.1) acc = acc ++ m.map (fun p => (p.2, p.1))
  | [], acc, _, _ => by simp
  | p :: m, acc, hnd, hfr => by
    rw [List.map_cons, List.nodup_cons] at hnd
    rw [List.foldl_cons, setKey_eq_append (hfr p (List.mem_cons_self _ _)),
      buildReverse_aux_eq m _ hnd.2
        (fun q hq => by
          rw [List.map_append]
          intro hin
          rcases List.mem_append.mp hin with he | he
          · exact hfr q (List.mem_cons_of_mem _ hq) he
          · simp only [List.map_cons, List.map_nil, List.mem_singleton] at he
            exact hnd.1 (he ▸ List.mem_map_of_mem Prod.snd hq)),
      List.append_assoc]
    rfl

theorem buildReverse_lookup {m : List (String × String)} {k fv : String}
    (hnd : (m.map Prod.snd).Nodup) (hmem : (k, fv) ∈ m) :
    lookupKey (buildReverse m) fv = some k := by
  rw [buildReverse, buildReverse_aux_eq m [] hnd (by simp), List.nil_append]
  induction m with
  | nil => cases hmem
  | cons p rest ih =>
    rw [List.map_cons, List.nodup_cons] at hnd
    rw [List.map_cons, lookupKey]
    by_cases hp : p.2 = fv
    · rw [if_pos hp]
      rcases List.mem_cons.mp hmem with he | he
      · rw [← he]
      · exact absurd (hp ▸ List.mem_map_of_mem Prod.snd he) hnd.1
    · rw [if_neg hp]
      rcases List.mem_cons.mp hmem with he | he
      · exact absurd (congrArg Prod.snd he).symm hp
      · exact ih hnd.2 he

/-- Name recovery: on a hygienic mapping, the save path's reverse lookup
undoes the load path's forward lookup. -/
theorem spName_recover (m : List (String × String)) (k : String)
    (h5 : ∀ p ∈ m, p.1 ≠ "" ∧ p.2 ≠ "")
    (h6 : (m.map Prod.snd).Nodup)
    (h7 : lookupKey m k = none → k ∉ m.map Prod.snd) :
    spNameOf (buildReverse m) (formNameOf m k) = k := by
  rcases hlk : lookupKey m k with _ | fv
  · have hform : formNameOf m k = k := by simp [formNameOf, hlk, strOr]
    have hnone : lookupKey (buildReverse m) k = none := by
      rw [lookupKey_eq_none]
      intro hin
      rcases (keys_buildReverse_aux m [] k).mp (by simpa [buildReverse] using hin) with h8 | h8
      · simp at h8
      · exact h7 hlk h8
    rw [hform]
    simp [spNameOf, hnone, strOr]
  · have hmem : (k, fv) ∈ m := lookupKey_mem hlk
    have hk : k ≠ "" := (h5 _ hmem).1
    have hfv : fv ≠ "" := (h5 _ hmem).2
    have hform : formNameOf m k = fv := by simp [formNameOf, hlk, strOr, hfv]
    rw [hform]
    simp [spNameOf, buildReverse_lookup h6 hmem, strOr, hk]

/-- The binding a plainly-shaped field contributes to the payload. -/
def emitPair (kv : String × JVal) : String × JVal :=
  if isSingleRef kv.2 then (kv.1 ++ "Id", kv.2.get "Id") else kv

/-- The payload key a plainly-shaped field contributes. -/
def emitKey (kv : String × JVal) : String :=
  if isSingleRef kv.2 then kv.1 ++ "Id" else kv.1

/-- One save step of a plainly-shaped field (scalar or single reference,
not attachment-named): it emits exactly its binding. -/
theorem processField_plain {rev : List (String × String)} {formData : List (String × JVal)}
    {orig : Option (List SPAttachment)} {acc : SaveResult} {f k : String} {w : JVal}
    (hsp : spNameOf rev f = k)
    (hlook : (lookupKey formData f).getD .undefined = w)
    (hatt1 : attachNamed f = false) (hatt2 : attachNamed k = false)
    (hw : isScalar w = true ∨ isSingleRef w = true) :
    processField rev formData orig acc f
      = .ok { spData := setKey acc.spData (emitKey (k, w)) (emitPair (k, w)).2,
              filesToUpload := acc.filesToUpload, filesToDelete := acc.filesToDelete } := by
  rcases hw with hs | hr
  · rcases w with _ | _ | b | q | s | items | fields <;> simp [isScalar] at hs <;>
      simp [processField, hsp, hlook, hatt1, hatt2, isSingleRef, emitKey, emitPair,
        JVal.typeOf, JVal.get]
  · rcases w with _ | _ | b | q | s | items | fields <;> simp [isSingleRef] at hr
    have hid : (JVal.obj fields).get "Id" ≠ .undefined := by simpa [bne_iff_ne] using hr
    simp [processField, hsp, hlook, hatt1, hatt2, isSingleRef, emitKey, emitPair,
      JVal.typeOf, hid, bne_iff_ne]

/-- `emitKey` and `emitPair` of the loaded value agree with those of the
original remote value. -/
theorem emit_loaded {k : String} {v : JVal} (hv : isScalar v = true ∨ isSingleRef v = true) :
    emitKey (k, okValue (mapSPValue v)) = emitKey (k, v)
    ∧ emitPair (k, okValue (mapSPValue v)) = (emitKey (k, v), (emitPair (k, v)).2) := by
  obtain ⟨hem1, hem2, hem3, _⟩ := loaded_emit hv
  rcases hsr : isSingleRef v with _ | _
  · have hs : isScalar v = true := by
      rcases hv with h | h
      · exact h
      · rw [h] at hsr; cases hsr
    rw [hem3 hs]
    simp [emitKey, emitPair, hsr]
  · constructor
    · simp only [emitKey]
      simp [hem1, hsr]
    · simp only [emitPair, emitKey]
      simp [hem1, hsr, hem2 hsr]

theorem save_fold_plain (rev : List (String × String)) (m : List (String × String))
    (formData : List (String × JVal)) (orig : Option (List SPAttachment)) :
    ∀ (r : List (String × JVal)) (acc : SaveResult),
      (∀ kv ∈ r,
         spNameOf rev (formNameOf m kv.1) = kv.1
         ∧ (lookupKey formData (formNameOf m kv.1)).getD .undefined = okValue (mapSPValue kv.2)
         ∧ (isScalar kv.2 = true ∨ isSingleRef kv.2 = true)
         ∧ attachNamed (formNameOf m kv.1) = false ∧ attachNamed kv.1 = false) →
      (∀ kv ∈ r, emitKey kv ∉ acc.spData.map Prod.fst) →
      (r.map emitKey).Nodup →
      List.foldlM (processField rev formData orig) acc (r.map (fun kv => formNameOf m kv.1))
        = .ok { spData := acc.spData ++ r.map emitPair,
                filesToUpload := acc.filesToUpload, filesToDelete := acc.filesToDelete }
  | [], acc, _, _, _ => by
    simp only [List.map_nil, List.foldlM, List.append_nil]
    rfl
  | kv :: rest, acc, hH, hfr, hnd => by
    obtain ⟨hsp, hlook, hshape, hatt1, hatt2⟩ := hH kv (List.mem_cons_self _ _)
    have hem4 := (loaded_emit hshape).2.2.2
    obtain ⟨he1, he2⟩ := emit_loaded (k := kv.1) hshape
    have hkv : ((kv.1 : String), kv.2) = kv := rfl
    have heta : emitPair kv = (emitKey kv, (emitPair kv).2) := by
      rcases hsr : isSingleRef kv.2 with _ | _ <;> simp [emitPair, emitKey, hsr]
    rw [List.map_cons, List.nodup_cons] at hnd
    rw [List.map_cons, List.foldlM,
      processField_plain hsp hlook hatt1 hatt2 hem4, except_ok_bind]
    have hfresh := hfr kv (List.mem_cons_self _ _)
    have hstep : setKey acc.spData (emitKey (kv.1, okValue (mapSPValue kv.2)))
          (emitPair (kv.1, okValue (mapSPValue kv.2))).2
        = acc.spData ++ [emitPair kv] := by
      rw [he1, he2, hkv, heta]
      exact setKey_eq_append hfresh
    rw [hstep,
      save_fold_plain rev m formData orig rest _
        (fun q hq => hH q (List.mem_cons_of_mem _ hq))
        (fun q hq => by
          rw [List.map_append]
          intro hin
          rcases List.mem_append.mp hin with he | he
          · exact hfr q (List.mem_cons_of_mem _ hq) he
          · simp only [List.map_cons, List.map_nil, List.mem_singleton] at he
            have hqk : emitKey q = emitKey kv := by
              rw [he]
              rcases hsr : isSingleRef kv.2 with _ | _ <;> simp [emitPair, emitKey, hsr]
            exact hnd.1 (hqk ▸ List.mem_map_of_mem emitKey hq))
        hnd.2]
    rw [List.map_cons, List.append_assoc]
    rfl

theorem mapSPValue_plain_ok {v : JVal} (hv : isScalar v = true ∨ isSingleRef v = true) :
    ∃ w, mapSPValue v = .ok w := by
  rcases hv with hs | hr
  · exact ⟨v, mapSPValue_scalar hs⟩
  · rcases v with _ | _ | b | q | s | items | fields <;> simp [isSingleRef] at hr
    have hid : (JVal.obj fields).get "Id" ≠ .undefined := by simpa [bne_iff_ne] using hr
    obtain ⟨w, hw, -, -⟩ := mapSPValue_ref hid
    exact ⟨w, hw⟩

/-- Claim C1, counterexample: a remote record holding only the scalar field
`MyAttachment` (whose name contains "attachment") round-trips to an *empty*
payload — the scalar is not reproduced under its remote name. -/
theorem roundtrip_drops_attachment_named_scalar :
    (mapSharePointDataToForm [("MyAttachment", .str "x")] [] >>= fun fv =>
        mapFormDataToSharePoint fv [] none none)
      = .ok { spData := [], filesToUpload := [], filesToDelete := [] } := by
  decide

/-- Claim C1 (amended): for a remote record of scalar and single-reference
fields whose names match neither the metadata-envelope exclusion nor the
attachment-name heuristic (on either side of the mapping), and a hygienic
name mapping (injective, non-empty names, no unmapped field name colliding
with a mapped form name, and no collisions among the emitted keys),
`toRemotePayload(toFormValues(r, m), m)` reproduces each single-reference
field as `<remoteName>Id` with the `Id` of `r` and each scalar field under
its remote name with its value unchanged — and nothing else. -/
theorem roundtrip_plain_record (r : List (String × JVal)) (m : List (String × String))
    (h1 : (r.map Prod.fst).Nodup)
    (h2 : ∀ kv ∈ r, startsWithOdata kv.1 = false ∧ hasAtOdata kv.1 = false)
    (h3 : ∀ kv ∈ r, isScalar kv.2 = true ∨ isSingleRef kv.2 = true)
    (h4 : ∀ kv ∈ r, attachNamed kv.1 = false ∧ attachNamed (formNameOf m kv.1) = false)
    (h5 : ∀ p ∈ m, p.1 ≠ "" ∧ p.2 ≠ "")
    (h6 : (m.map Prod.snd).Nodup)
    (h7 : ∀ kv ∈ r, lookupKey m kv.1 = none → kv.1 ∉ m.map Prod.snd)
    (h8 : (r.map (fun kv => formNameOf m kv.1)).Nodup)
    (h9 : (r.map emitKey).Nodup) :
    (mapSharePointDataToForm r m >>= fun fv => mapFormDataToSharePoint fv m none none)
      = .ok { spData := r.map emitPair, filesToUpload := [], filesToDelete := [] } := by
  have hload : mapSharePointDataToForm r m
      = .ok (r.map (fun kv => (formNameOf m kv.1, okValue (mapSPValue kv.2)))) := by
    rw [mapSharePointDataToForm,
      loadFields_eq m r [] []
        (fun kv hkv => ⟨(h2 kv hkv).1, (h2 kv hkv).2, by simp,
          mapSPValue_plain_ok (h3 kv hkv)⟩)
        h1 h8 (by simp)]
    rw [List.nil_append]
  rw [hload, except_ok_bind]
  simp only [mapFormDataToSharePoint, List.map_map]
  rw [show (Prod.fst ∘ fun kv => (formNameOf m kv.1, okValue (mapSPValue kv.2)))
      = (fun kv : String × JVal => formNameOf m kv.1) from rfl]
  rw [save_fold_plain (buildReverse m) m _ none r _
    (fun kv hkv =>
      ⟨spName_recover m kv.1 h5 h6 (h7 kv hkv),
       by rw [lookup_map_self (fun kv => formNameOf m kv.1)
            (fun kv => okValue (mapSPValue kv.2)) r kv hkv h8]; rfl,
       h3 kv hkv, (h4 kv hkv).2, (h4 kv hkv).1⟩)
    (by simp) h9]
  rw [List.nil_append]

/-- Witness for the amended claim C1: the record
`{Title: "hi", Owner: {Id: 7, Title: "Bob"}}` with mapping `Owner → owner`
round-trips to `{Title: "hi", OwnerId: 7}`. -/
theorem roundtrip_plain_record_witness :
    (mapSharePointDataToForm
        [("Title", .str "hi"), ("Owner", .obj [("Id", .num 7), ("Title", .str "Bob")])]
        [("Owner", "owner")] >>= fun fv =>
      mapFormDataToSharePoint fv [("Owner", "owner")] none none)
      = .ok { spData := [("Title", .str "hi"), ("OwnerId", .num 7)],
              filesToUpload := [], filesToDelete := [] } :=
  (roundtrip_plain_record
      [("Title", .str "hi"), ("Owner", .obj [("Id", .num 7), ("Title", .str "Bob")])]
      [("Owner", "owner")]
      (by decide) (by decide) (by decide) (by decide) (by decide) (by decide)
      (by decide) (by decide) (by decide)).trans (by decide)

/-! ## Claim C9 — load-path mapping -/

/-- Claim C9, counterexample: an array element carrying `Id` and a
*present but empty* `Name` maps to `{Id, Title}` — the `Name` member is
dropped, contradicting "preserving `Name` when present" (the code predicate
is truthiness, not presence). -/
theorem loadpath_drops_empty_name :
    mapSharePointDataToForm [("F", .arr [.obj [("Id", .num 1), ("Name", .str "")]])] []
      = .ok [("F", .arr [.obj [("Id", .num 1), ("Title", .undefined)]])]
    ∧ lookupKey [("Id", JVal.num 1), ("Title", JVal.undefined)] "Name" = none := by
  decide

/-- JS `Array.prototype.map` in the `Option` monad, for the spec-side rule. -/
def mapOption (g : JVal → Option JVal) : List JVal → Option (List JVal)
  | [] => some []
  | x :: xs =>
    match g x with
    | none => none
    | some y =>
      match mapOption g xs with
      | none => none
      | some ys => some (y :: ys)

/-- The reference shape of one array element as spec §4.2 words it, amended:
`Name` is preserved when truthy; a `null`/`undefined` element fails. -/
def specRefShape (item : JVal) : Option JVal :=
  match item with
  | .null => none
  | .undefined => none
  | _ =>
    if (item.get "Name").truthy then
      some (.obj [("Id", item.get "Id"), ("Title", item.get "Title"), ("Name", item.get "Name")])
    else
      some (.obj [("Id", item.get "Id"), ("Title", item.get "Title")])

/-- The per-value load rule as spec §4.2 words it, amended by the
counterexamples: `null`/`undefined` become `null`; an object with `Id` and
a present `Name` keeps `{Id, Title, Name}`; an object with `Id` and `Title`
(and hence no present `Name`) keeps `{Id, Title}`; a non-empty array whose
first element is a non-`null` object with `Id` maps element-wise to the
reference shape (`null` first element: failure, i.e. a thrown `TypeError`);
anything else passes through unchanged. -/
def specLoadValue (v : JVal) : Option JVal :=
  match v with
  | .null => some .null
  | .undefined => some .null
  | .obj fields =>
    if (JVal.obj fields).get "Id" ≠ .undefined ∧ (JVal.obj fields).get "Name" ≠ .undefined then
      some (.obj [("Id", (JVal.obj fields).get "Id"), ("Title", (JVal.obj fields).get "Title"),
                  ("Name", (JVal.obj fields).get "Name")])
    else if (JVal.obj fields).get "Id" ≠ .undefined ∧ (JVal.obj fields).get "Title" ≠ .undefined then
      some (.obj [("Id", (JVal.obj fields).get "Id"), ("Title", (JVal.obj fields).get "Title")])
    else
      some (.obj fields)
  | .arr [] => some (.arr [])
  | .arr (h :: t) =>
    if h = .null then none
    else if h.typeOf = "object" ∧ h.get "Id" ≠ .undefined then
      (mapOption specRefShape (h :: t)).map .arr
    else
      some (.arr (h :: t))
  | x => some x

theorem refElem_eq_spec (x : JVal) :
    refElem x = (match specRefShape x with
                 | some w => Except.ok w
                 | none => Except.error ()) := by
  rcases x with _ | _ | b | q | s | items | fields <;>
    simp only [refElem, specRefShape] <;>
    rcases ht : (JVal.get _ "Name").truthy with _ | _ <;> simp [ht]

theorem mapExcept_refElem_eq_spec (items : List JVal) :
    mapExcept refElem items
      = (match mapOption specRefShape items with
         | some ws => Except.ok ws
         | none => Except.error ()) := by
  induction items with
  | nil => rfl
  | cons x xs ih =>
    rw [mapExcept, mapOption, refElem_eq_spec x]
    rcases hx : specRefShape x with _ | w
    · rfl
    · rw [ih]
      rcases hxs : mapOption specRefShape xs with _ | ws <;> rfl

/-- Claim C9 (amended): the per-value load transformation agrees with the
spec-side rule `specLoadValue` on every value (failure corresponding to the
thrown `TypeError`); a non-excluded remote field is written under
`mapping[remoteName]` when present, else `remoteName`; and a remote field
matching the metadata-envelope exclusion is skipped. -/
theorem mapSPValue_eq_specLoadValue :
    (∀ v : JVal, mapSPValue v
        = (match specLoadValue v with
           | some w => Except.ok w
           | none => Except.error ()))
    ∧ (∀ (k : String) (v : JVal) (w : JVal) (m : List (String × String)),
        startsWithOdata k = false → hasAtOdata k = false →
        mapSPValue v = .ok w →
        mapSharePointDataToForm [(k, v)] m = .ok [(formNameOf m k, w)])
    ∧ (∀ (k : String) (v : JVal) (m : List (String × String)),
        (startsWithOdata k = true ∨ hasAtOdata k = true) →
        mapSharePointDataToForm [(k, v)] m = .ok []) := by
  refine ⟨?_, ?_, ?_⟩
  · intro v
    rcases v with _ | _ | b | q | s | items | fields
    · simp [mapSPValue, specLoadValue]
    · simp [mapSPValue, specLoadValue]
    · simp [mapSPValue, specLoadValue, JVal.typeOf]
    · simp [mapSPValue, specLoadValue, JVal.typeOf]
    · simp [mapSPValue, specLoadValue, JVal.typeOf]
    · rcases items with _ | ⟨h, t⟩
      · simp [mapSPValue, specLoadValue, JVal.typeOf, JVal.isArray, JVal.get]
      · by_cases hn : h = .null
        · subst hn
          simp [mapSPValue, specLoadValue, JVal.typeOf, JVal.isArray, JVal.get]
        · by_cases hh : h.typeOf = "object" ∧ h.get "Id" ≠ .undefined
          · have hmap : mapSPValue (.arr (h :: t)) = (mapExcept refElem (h :: t)).map .arr := by
              simp only [mapSPValue]
              rw [if_neg (by simp), if_neg (by simp [JVal.isArray]),
                if_neg (by simp [JVal.isArray]), if_neg hn, if_pos hh]
            have hspec : specLoadValue (.arr (h :: t))
                = (mapOption specRefShape (h :: t)).map .arr := by
              simp only [specLoadValue]
              rw [if_neg hn, if_pos hh]
            rw [hmap, hspec, mapExcept_refElem_eq_spec]
            rcases hm : mapOption specRefShape (h :: t) with _ | ws <;> rfl
          · have hmap : mapSPValue (.arr (h :: t)) = .ok (.arr (h :: t)) := by
              simp only [mapSPValue]
              rw [if_neg (by simp), if_neg (by simp [JVal.isArray]),
                if_neg (by simp [JVal.isArray]), if_neg hn, if_neg hh]
            have hspec : specLoadValue (.arr (h :: t)) = some (.arr (h :: t)) := by
              simp only [specLoadValue]
              rw [if_neg hn, if_neg hh]
            rw [hmap, hspec]
    · by_cases h1 : (JVal.obj fields).get "Id" ≠ .undefined ∧ (JVal.obj fields).get "Name" ≠ .undefined
      · simp [mapSPValue, specLoadValue, JVal.typeOf, JVal.isArray, h1.1, h1.2]
      · by_cases h2 : (JVal.obj fields).get "Id" ≠ .undefined ∧ (JVal.obj fields).get "Title" ≠ .undefined
        · have hname : (JVal.obj fields).get "Name" = .undefined := by
            by_contra hc
            exact h1 ⟨h2.1, hc⟩
          simp [mapSPValue, specLoadValue, JVal.typeOf, JVal.isArray, h1, h2, h2.1, h2.2,
            hname, JVal.truthy]
        · simp only [mapSPValue, specLoadValue, JVal.typeOf, JVal.isArray]
          rw [if_neg (by simp), if_neg (by simp [bne_iff_ne]; tauto),
            if_neg (by rintro ⟨-, -, hid, hti, -⟩; exact h2 ⟨hid, hti⟩),
            if_neg h1, if_neg h2]
  · intro k v w m ho1 ho2 hw
    rw [mapSharePointDataToForm, loadFields, if_neg (by simp [ho1, ho2])]
    simp only [hw]
    rfl
  · intro k v m he
    rw [mapSharePointDataToForm, loadFields, if_pos (by tauto)]
    rfl

/-- Witness for the amended claim C9: a mapped user-shaped reference field
loads under its mapped name with `{Id, Title, Name}` retained. -/
theorem mapSPValue_eq_specLoadValue_witness :
    mapSharePointDataToForm
        [("Owner", .obj [("Id", .num 7), ("Title", .str "Bob"), ("Name", .str "i:0#.f|bob")])]
        [("Owner", "owner")]
      = .ok [("owner", .obj [("Id", .num 7), ("Title", .str "Bob"), ("Name", .str "i:0#.f|bob")])]
    ∧ mapSharePointDataToForm [("odata.etag", .str "x")] [] = .ok [] :=
  ⟨(mapSPValue_eq_specLoadValue.2.1 "Owner"
      (.obj [("Id", .num 7), ("Title", .str "Bob"), ("Name", .str "i:0#.f|bob")])
      (.obj [("Id", .num 7), ("Title", .str "Bob"), ("Name", .str "i:0#.f|bob")])
      [("Owner", "owner")] (by decide) (by decide) (by decide)).trans (by decide),
   mapSPValue_eq_specLoadValue.2.2 "odata.etag" (.str "x") [] (Or.inl (by decide))⟩

end SpfxForm
